import Mathlib

/-!
# Verification of the polluted-cities service core

Shallow embedding of the aggregation / progressive-caching engine of the
polluted-cities service (TypeScript sources: city.service.ts, cache.service.ts,
wikipedia.client.ts, polluApi.client.ts, cityFilter.ts, nameCase.ts,
asciiFold.ts, constants.ts), together with theorems settling the frozen
claims about it.

Conventions of the embedding:
* JavaScript strings are Lean strings; all inputs considered live in the
  Latin repertoire, where the NFC/NFKC normalization performed by the code is
  the identity, so normalize-NFKC steps are modelled as whitespace handling
  only (the sources only ever combine NFKC with whitespace collapsing).
* Character case mapping and diacritic folding are modelled by explicit,
  executable character tables covering ASCII plus the non-ASCII letters
  exercised in this development; other characters map to themselves.
* JavaScript numbers that the code compares and sorts (pollution values,
  timestamps, TTLs) are integers in every scenario and are modelled as Int
  and Nat; NaN and non-number payloads are a separate constructor.
* Mutating methods become state-passing functions; Date.now() is a virtual
  clock passed explicitly and held constant within one request (requests are
  modelled as instantaneous; only the rate-gate model advances time, since
  there sleeping is the observable behavior).
-/

namespace PollutedCities

/-! ## Supported countries (constants.ts) -/

inductive Country where
  | PL | DE | ES | FR
deriving DecidableEq, Repr

/-- Country code string, as used in cache keys and locale dispatch. -/
def Country.code : Country → String
  | .PL => "PL"
  | .DE => "DE"
  | .ES => "ES"
  | .FR => "FR"

/-- COUNTRY_LABELS from constants.ts. -/
def countryLabel : Country → String
  | .PL => "Poland"
  | .DE => "Germany"
  | .ES => "Spain"
  | .FR => "France"

/-! ## Character-level utilities

Executable models of the JavaScript string primitives used by the sources.
The case tables cover ASCII plus the non-ASCII Latin letters used anywhere in
this development; every other character is fixed. -/

/-- Lowercasing of a single character: ASCII plus the Latin letters with
diacritics used in this development (models String.prototype.toLowerCase and
toLocaleLowerCase for the pl/de/es/fr locales, which agree on these letters). -/
def jsLowerChar (c : Char) : Char :=
  if 'A' ≤ c ∧ c ≤ 'Z' then Char.ofNat (c.toNat + 32)
  else if c = 'Ł' then 'ł'
  else if c = 'Ó' then 'ó'
  else if c = 'Ź' then 'ź'
  else if c = 'Ż' then 'ż'
  else if c = 'É' then 'é'
  else if c = 'Ä' then 'ä'
  else if c = 'Ö' then 'ö'
  else if c = 'Ü' then 'ü'
  else if c = 'Ñ' then 'ñ'
  else if c = 'Á' then 'á'
  else c

/-- Uppercasing of a single character, inverse table to jsLowerChar
(models toUpperCase / toLocaleUpperCase on the same repertoire). -/
def jsUpperChar (c : Char) : Char :=
  if 'a' ≤ c ∧ c ≤ 'z' then Char.ofNat (c.toNat - 32)
  else if c = 'ł' then 'Ł'
  else if c = 'ó' then 'Ó'
  else if c = 'ź' then 'Ź'
  else if c = 'ż' then 'Ż'
  else if c = 'é' then 'É'
  else if c = 'ä' then 'Ä'
  else if c = 'ö' then 'Ö'
  else if c = 'ü' then 'Ü'
  else if c = 'ñ' then 'Ñ'
  else if c = 'á' then 'Á'
  else c

def jsToLowerStr (s : String) : String := String.mk (s.data.map jsLowerChar)

def jsToUpperStr (s : String) : String := String.mk (s.data.map jsUpperChar)

/-- Unicode letter test (the \p{L} class), modelled as ASCII letters plus the
non-ASCII letters of the development's repertoire. -/
def isLetterChar (c : Char) : Bool :=
  c.isAlpha ||
  c ∈ (['ł', 'Ł', 'ó', 'Ó', 'ź', 'Ź', 'ż', 'Ż', 'é', 'É', 'ä', 'Ä',
        'ö', 'Ö', 'ü', 'Ü', 'ñ', 'Ñ', 'á', 'Á', 'ß'] : List Char)

/-- JavaScript regex word character (the \w class: ASCII letters, digits,
underscore; the u flag does not widen it). -/
def isWordChar (c : Char) : Bool := c.isAlphanum || c = '_'

def isWsChar (c : Char) : Bool := c = ' ' || c = '\t' || c = '\n' || c = '\r'

/-- Split a character list at separators chosen by p, keeping empty groups
(the split semantics of the JavaScript and Lean string split functions). -/
def splitOnPred (p : Char → Bool) (cs : List Char) : List (List Char) :=
  cs.foldr
    (fun c acc =>
      if p c then [] :: acc
      else
        match acc with
        | g :: gs => (c :: g) :: gs
        | [] => [[c]])
    [[]]

/-- The nonempty whitespace-separated words of a string. -/
def splitWsWords (s : String) : List String :=
  ((splitOnPred isWsChar s.data).map String.mk).filter (fun w => w ≠ "")

/-- Whitespace collapse and trim: the composite of the replace of runs of
whitespace characters by one space and of String.prototype.trim, used by both
normalize in cityFilter.ts and asciiFold.ts step 5. -/
def collapseWs (s : String) : String :=
  String.intercalate " " (splitWsWords s)

/-! ## asciiFold (asciiFold.ts)

The source applies a pre-map table, NFKD normalization, removal of combining
marks, an optional punctuation filter, whitespace collapse, and optional space
replacement and lowering (the last two options are never used by callers).
The NFKD-plus-strip-marks composite acts letterwise on the Latin repertoire
and is modelled by the foldChar table. -/

/-- PRE_MAP of asciiFold.ts (characters NFKD does not turn into ASCII). -/
def preMapChar (c : Char) : String :=
  if c = 'ß' then "ss"
  else if c = 'Æ' then "AE" else if c = 'æ' then "ae"
  else if c = 'Ø' then "O" else if c = 'ø' then "o"
  else if c = 'Å' then "A" else if c = 'å' then "a"
  else if c = 'Œ' then "OE" else if c = 'œ' then "oe"
  else if c = 'Ł' then "L" else if c = 'ł' then "l"
  else if c = 'Đ' then "D" else if c = 'đ' then "d"
  else if c = 'Ħ' then "H" else if c = 'ħ' then "h"
  else if c = 'İ' then "I" else if c = 'ı' then "i"
  else if c = 'ſ' then "s" else if c = 'ƒ' then "f"
  else if c = 'Þ' then "Th" else if c = 'þ' then "th"
  else if c = 'Ð' then "D" else if c = 'ð' then "d"
  else String.mk [c]

/-- NFKD decomposition followed by removal of combining marks, as a single
letterwise table on the development's repertoire (ASCII fixed; accented Latin
letters lose their marks). -/
def foldChar (c : Char) : Char :=
  if c = 'ó' then 'o' else if c = 'Ó' then 'O'
  else if c = 'ź' then 'z' else if c = 'Ź' then 'Z'
  else if c = 'ż' then 'z' else if c = 'Ż' then 'Z'
  else if c = 'é' then 'e' else if c = 'É' then 'E'
  else if c = 'ä' then 'a' else if c = 'Ä' then 'A'
  else if c = 'ö' then 'o' else if c = 'Ö' then 'O'
  else if c = 'ü' then 'u' else if c = 'Ü' then 'U'
  else if c = 'ñ' then 'n' else if c = 'Ñ' then 'N'
  else if c = 'á' then 'a' else if c = 'Á' then 'A'
  else c

/-- asciiFold of asciiFold.ts; the removePunctuation flag is the only option
callers pass (cityKey and classify pass true, the retry fold passes false). -/
def asciiFold (input : String) (removePunctuation : Bool) : String :=
  let s := String.join (input.data.map preMapChar)
  let s := String.mk (s.data.map foldChar)
  let s := if removePunctuation then
      String.mk (s.data.filter (fun c =>
        isLetterChar c || c.isDigit || isWsChar c || c = '-'))
    else s
  collapseWs s

/-! ## toNameCase (nameCase.ts) -/

/-- The per-locale function-word lists of handleLocaleSpecificCases.
The composite alternatives of the source regexes (for example the Spanish
multiword particles) are unreachable because the ordered alternation matches
the leading single word first, so the effective token sets are these. -/
def localeParticles (locale : String) : List String :=
  if locale = "es" then ["de", "del"]
  else if locale = "fr" then
    ["de", "du", "des", "le", "la", "les", "sur", "sous", "en", "au", "aux"]
  else []

/-- Split a character list into maximal runs of word characters, with every
non-word character as its own singleton run (the grouping underlying regex
word boundaries). -/
def groupWordRuns (cs : List Char) : List (List Char) :=
  cs.foldr
    (fun c acc =>
      match acc with
      | run :: rest =>
        if isWordChar c && (run.head?.map isWordChar).getD false then
          (c :: run) :: rest
        else [c] :: acc
      | [] => [[c]])
    []

/-- Replace every maximal word-character run of s that equals a particle by
its lowercase form, modelling the case-sensitive global word-boundary replace
of handleLocaleSpecificCases (a no-op on the already-lowercased strings the
caller passes, since matches are exact lowercase tokens). -/
def lowerParticleRuns (particles : List String) (cs : List Char) : List Char :=
  ((groupWordRuns cs).map (fun run =>
    let runStr := String.mk run
    if (run.head?.map isWordChar).getD false && particles.contains runStr then
      (jsToLowerStr runStr).data
    else run)).flatten

def handleLocaleSpecificCases (input : String) (locale : String) : String :=
  String.mk (lowerParticleRuns (localeParticles locale) input.data)

/-- The separator class of the capitalization regex of toNameCase:
Unicode space separators, Unicode dashes, both apostrophes, slash,
parentheses and period, restricted to the development's repertoire. -/
def isCapSep (c : Char) : Bool :=
  c = ' ' || c = '-' || c = '–' || c = '—' || c = '\'' || c = '’' ||
  c = '/' || c = '(' || c = ')' || c = '.'

/-- The global replace of toNameCase that uppercases a letter at the start of
the string or right after a separator, as a left-to-right automaton (the
regex consumes separator-letter pairs; since no letter is a separator this
equals uppercasing each letter whose predecessor is a separator or absent). -/
def capAfterSep : Bool → List Char → List Char
  | _, [] => []
  | capNext, c :: rest =>
    if capNext && isLetterChar c then
      jsUpperChar c :: capAfterSep false rest
    else
      c :: capAfterSep (isCapSep c) rest

/-- toNameCase of nameCase.ts.  The locale map sends the four country codes
to lowercase locale codes and lowercases anything else. -/
def toNameCase (input : String) (locale : String) : String :=
  if input = "" then ""
  else
    let normalizedLocale :=
      if locale = "PL" || locale = "pl" then "pl"
      else if locale = "DE" || locale = "de" then "de"
      else if locale = "ES" || locale = "es" then "es"
      else if locale = "FR" || locale = "fr" then "fr"
      else jsToLowerStr locale
    let s := jsToLowerStr input
    let s := handleLocaleSpecificCases s normalizedLocale
    String.mk (capAfterSep true s.data)

/-! ## Record classifier (cityFilter.ts) -/

/-- String.prototype.trim. -/
def trimStr (s : String) : String :=
  String.mk (((s.data.dropWhile isWsChar).reverse.dropWhile isWsChar).reverse)

/-- normalize of cityFilter.ts: NFKC (identity on the Latin repertoire),
whitespace-run collapse, trim. -/
def normalize (s : String) : String := collapseWs s

def DIR : List String :=
  ["north", "south", "east", "west",
   "northeast", "northwest", "southeast", "southwest"]

def FACILITY : List String :=
  ["airport", "station", "terminal", "harbor", "harbour", "port", "metro",
   "railway", "bus", "power plant", "refinery", "mine", "industrial", "zone",
   "park", "bridge", "dam", "factory", "plant", "works", "depot", "yard",
   "stadium", "arena", "mall", "market", "plaza", "campus", "university",
   "college", "hospital", "clinic"]

def ADMIN : List String :=
  ["state", "province", "region", "county", "district", "prefecture",
   "municipality", "commune", "arrondissement", "borough", "canton",
   "parish", "division", "ward", "zone"]

def NON_CITY_LOCALITY : List String :=
  ["village", "hamlet", "suburb", "neighbourhood", "neighborhood", "sector",
   "block", "phase", "quarter", "colony", "township"]

def PLACEHOLDER : List String :=
  ["unknown", "n/a", "null", "test", "sample", "area"]

/-- Whether the characters pat occur in s starting at index i. -/
def subListAt (s pat : List Char) (i : Nat) : Bool :=
  (s.drop i).take pat.length == pat

/-- hasWord of cityFilter.ts: some vocabulary word occurs in s delimited by
regex word boundaries (every vocabulary word begins and ends with a word
character, so the boundary conditions reduce to the neighbouring characters
not being word characters); the i flag is modelled by lowercasing both sides. -/
def hasWordOccurrence (w s : String) : Bool :=
  let sc := (jsToLowerStr s).data
  let wc := (jsToLowerStr w).data
  (List.range (sc.length + 1)).any (fun i =>
    subListAt sc wc i &&
    (i == 0 || !(isWordChar (sc.getD (i - 1) ' '))) &&
    (i + wc.length ≥ sc.length || !(isWordChar (sc.getD (i + wc.length) ' '))))

def hasWord (s : String) (words : List String) : Bool :=
  words.any (fun w => hasWordOccurrence w s)

def hasDigits (s : String) : Bool := s.data.any Char.isDigit

def hasBadSymbols (s : String) : Bool :=
  s.data.any (fun c => c ∈ (['@', '/', '_', '#', '|', '\\'] : List Char))

def mostlyNonLetters (s : String) : Bool :=
  let letters := (s.data.filter isLetterChar).length
  letters == 0 || letters * 2 < s.data.length

/-- Splits off a trailing parenthetical qualifier: when the string matches
the trailing-parenthetical regex of cityFilter.ts (a parenthesized nonempty
run without close parens, followed only by whitespace), returns the trimmed
part before the open paren. Returns none when the regex does not match. -/
def parenSuffixSplit (s : String) : Option String :=
  let rev := s.data.reverse.dropWhile isWsChar
  match rev with
  | ')' :: rest =>
    let inner := rest.takeWhile (fun c => c ≠ '(' && c ≠ ')')
    match rest.drop inner.length with
    | '(' :: before =>
      if inner.isEmpty then none else some (trimStr (String.mk before.reverse))
    | _ => none
  | _ => none

/-- Whether the trailing-directional regex of cityFilter.ts matches the
suffix of cs starting at index i: optional whitespace, an optional dash, more
optional whitespace, then (case-insensitively) a directional word followed by
an optional period at the very end.  The regex has no word boundary before
the directional word, so the suffix may start inside a word. -/
def dirSuffixMatchAt (cs : List Char) (i : Nat) : Bool :=
  let t := (cs.drop i).dropWhile isWsChar
  let t := match t with
    | c :: r => if c ∈ (['-', '–', '—'] : List Char) then r else t
    | [] => t
  let t := (t.dropWhile isWsChar).map jsLowerChar
  DIR.any (fun d => t == d.data || t == d.data ++ ['.'])

/-- stripDirectional of cityFilter.ts: remove the leftmost match of the
trailing-directional regex, then trim. -/
def stripDirectional (s : String) : String :=
  match (List.range s.data.length).find? (fun i => dirSuffixMatchAt s.data i) with
  | some i => trimStr (String.mk (s.data.take i))
  | none => trimStr s

def cityNounWords : List String := ["city", "capital", "metropolis", "municipality"]

/-- Match of the leading city-noun regex of salvageCityOf
(caret, city noun, whitespace, of, whitespace, captured rest), returning the
capture from the original string. -/
def cityOfMatch (s : String) : Option String :=
  let ls := (jsToLowerStr s).data
  cityNounWords.findSome? (fun w =>
    if ls.take w.length == w.data then
      let rest1 := ls.drop w.length
      let n1 := (rest1.takeWhile isWsChar).length
      if n1 ≥ 1 then
        let rest2 := rest1.drop n1
        if rest2.take 2 == ['o', 'f'] then
          let rest3 := rest2.drop 2
          let n2 := (rest3.takeWhile isWsChar).length
          if n2 ≥ 1 && rest3.length > n2 then
            some (String.mk (s.data.drop (w.length + n1 + 2 + n2)))
          else none
        else none
      else none
    else none)

/-- Match of the trailing city-noun regex of salvageCityOf (lazy nonempty
captured head, whitespace, city noun, end): the shortest nonempty head works,
as the lazy quantifier tries shortest first. -/
def cityPostMatch (s : String) : Option String :=
  let ls := (jsToLowerStr s).data
  (List.range ls.length).findSome? (fun i =>
    if i == 0 then none
    else
      let n := ((ls.drop i).takeWhile isWsChar).length
      if n ≥ 1 && cityNounWords.any (fun w => ls.drop (i + n) == w.data) then
        some (String.mk (s.data.take i))
      else none)

/-- salvageCityOf of cityFilter.ts. -/
def salvageCityOf (s : String) : String :=
  match cityOfMatch s with
  | some r => trimStr r
  | none =>
    match cityPostMatch s with
    | some r => trimStr r
    | none => s

/-- baseName of cityFilter.ts.  The simple-title-case replace of the source
is a no-op (its regex captures only the separator, and the callback
uppercases that separator, not the following letter), so after lowercasing
the name goes straight to toNameCase. -/
def baseName (raw : String) (locale : String) :
    String × Bool × List String :=
  let name := normalize raw
  let before := name
  let (name, quals) :=
    match parenSuffixSplit name with
    | some p => (p, ["paren"])
    | none => (name, [])
  let afterParen := name
  let name := stripDirectional name
  let quals := quals ++ (if name ≠ afterParen then ["direction"] else [])
  let afterDir := name
  let name := salvageCityOf name
  let quals := quals ++ (if name ≠ afterDir then ["city-noun"] else [])
  let name := jsToLowerStr name
  let name := toNameCase name locale
  (name, name ≠ before, quals)

def looksLikeFacilityOrAdmin (s : String) : Bool :=
  let low := jsToLowerStr s
  if hasWord low PLACEHOLDER && hasDigits low then true
  else if hasWord low FACILITY || hasWord low ADMIN ||
      hasWord low NON_CITY_LOCALITY then true
  else if hasDigits low && (hasWord low FACILITY || hasWord low ADMIN) then true
  else false

inductive FilterResult where
  | keep (city englishCity reason : String) (confidence : ℚ)
  | salvage (city englishCity reason : String) (confidence : ℚ)
  | reject (reason : String) (confidence : ℚ) (englishCity : String)
deriving DecidableEq, Repr

/-- classify of cityFilter.ts, on the name of the raw entry and the locale
(the pollution field of the entry is not consulted by the classifier). -/
def classify (rawName : String) (locale : String) : FilterResult :=
  let original := normalize rawName
  let englishOriginal := asciiFold original true
  if original = "" then .reject "empty" 1 englishOriginal
  else if hasBadSymbols original || mostlyNonLetters original then
    .reject "bad-shape" 1 englishOriginal
  else
    match baseName original locale with
    | (base, changed, quals) =>
      let englishBase := asciiFold base true
      if base.length < 2 || base.length > 64 then
        .reject "length" 1 englishBase
      else if looksLikeFacilityOrAdmin original then
        if looksLikeFacilityOrAdmin base || hasDigits base then
          .reject "facility/admin" 1 englishBase
        else
          .salvage base englishBase
            ("salvaged:" ++
              (if quals.isEmpty then "qualifier" else String.intercalate "," quals))
            (7 / 10)
      else if hasDigits base then .reject "digits" 1 englishBase
      else if !changed then .keep base englishBase "heuristic" (9 / 10)
      else
        .salvage base englishBase
          ("normalized:" ++ String.intercalate "," quals) (7 / 10)

/-! ## TTL/LRU cache (cache.service.ts) -/

structure CacheEntry (α : Type) where
  data : α
  timestamp : Nat
  ttl : Nat
deriving DecidableEq, Repr

/-- The LRUCache of cache.service.ts: a JavaScript Map in insertion order,
with lazy expiry on read and least-recently-touched eviction on overflow. -/
structure LRUCache (α : Type) where
  entries : List (String × CacheEntry α)
  maxSize : Nat
deriving DecidableEq, Repr

namespace LRUCache

/-- get: absent gives none; an expired entry is deleted and gives none; a
fresh entry is moved to the most-recent end and its data returned.  Returns
the updated cache alongside (the source mutates in place). -/
def get {α : Type} (c : LRUCache α) (now : Nat) (key : String) :
    Option α × LRUCache α :=
  match c.entries.find? (fun p => p.1 == key) with
  | none => (none, c)
  | some pr =>
    if now - pr.2.timestamp > pr.2.ttl then
      (none, { c with entries := c.entries.filter (fun p => p.1 != key) })
    else
      (some pr.2.data,
       { c with entries := c.entries.filter (fun p => p.1 != key) ++ [(key, pr.2)] })

/-- set: delete then append (refreshing recency), then evict the oldest entry
when over capacity.  The source skips the eviction delete when the first key
is falsy, which for string keys means the empty string. -/
def set {α : Type} (c : LRUCache α) (now : Nat) (key : String) (v : α)
    (ttl : Nat) : LRUCache α :=
  let es := c.entries.filter (fun p => p.1 != key) ++ [(key, ⟨v, now, ttl⟩)]
  let es :=
    if es.length > c.maxSize then
      match es with
      | (k, _) :: rest => if k = "" then es else rest
      | [] => es
    else es
  { c with entries := es }

def size {α : Type} (c : LRUCache α) : Nat := c.entries.length

end LRUCache

/-! ## Cache configuration (constants.ts) -/

def POLLUTION_TTL : Nat := 5 * 60 * 1000
def WIKIPEDIA_TTL : Nat := 24 * 60 * 60 * 1000
def COUNTRY_TTL : Nat := 2 * 60 * 60 * 1000
def POLLUTION_CACHE_SIZE : Nat := 500
def WIKIPEDIA_CACHE_SIZE : Nat := 1000
def COUNTRY_CACHE_SIZE : Nat := 50

/-! ## Data model -/

/-- CityResult of city.service.ts.  Pollution values are JavaScript numbers;
every value handled in this development is an integer. -/
structure CityResult where
  country : Country
  city : String
  pollution : Int
  description : Option String
deriving DecidableEq, Repr

/-- CountryCacheData of cache.service.ts. -/
structure CountryCacheData where
  cities : List CityResult
  lastPage : Nat
  totalPages : Option Nat
  timestamp : Nat
  isComplete : Bool
deriving DecidableEq, Repr

/-- An unknown-typed JavaScript value as far as parsePollution can tell it
apart: a finite number, or anything else (strings, NaN, Infinity, null). -/
inductive JSVal where
  | num (n : Int)
  | nonNumber
deriving DecidableEq, Repr

/-- parsePollution of city.service.ts: finite nonnegative numbers pass. -/
def parsePollution : JSVal → Option Int
  | .num n => if 0 ≤ n then some n else none
  | .nonNumber => none

structure PollutionRow where
  name : Option String
  pollution : JSVal
deriving DecidableEq, Repr

structure PollutionMeta where
  page : Nat
  totalPages : Option Nat
deriving DecidableEq, Repr

/-- PollutionResponse of polluApi.client.ts; meta and results are defended
with optional chaining in the service, so both are optional here. -/
structure PollutionResponse where
  meta : Option PollutionMeta
  results : Option (List PollutionRow)
deriving DecidableEq, Repr

/-! ## CacheService (cache.service.ts) -/

structure CacheState where
  pollution : LRUCache PollutionResponse
  wiki : LRUCache (Option String)
  country : LRUCache CountryCacheData
deriving DecidableEq, Repr

def initialCacheState : CacheState :=
  { pollution := { entries := [], maxSize := POLLUTION_CACHE_SIZE }
    wiki := { entries := [], maxSize := WIKIPEDIA_CACHE_SIZE }
    country := { entries := [], maxSize := COUNTRY_CACHE_SIZE } }

def pollutionKey (c : Country) (page limit : Nat) : String :=
  c.code ++ ":" ++ toString page ++ ":" ++ toString limit

def getPollutionPage (st : CacheState) (now : Nat) (c : Country)
    (page limit : Nat) : Option PollutionResponse × CacheState :=
  let r := st.pollution.get now (pollutionKey c page limit)
  (r.1, { st with pollution := r.2 })

def setPollutionPage (st : CacheState) (now : Nat) (c : Country)
    (page limit : Nat) (data : PollutionResponse) : CacheState :=
  { st with pollution := st.pollution.set now (pollutionKey c page limit) data POLLUTION_TTL }

/-- getWikiDescription of cache.service.ts.  The underlying JavaScript
LRUCache.get returns the entry data or null, so for the description cache
(whose values are string-or-null) a stored null outcome is indistinguishable
from a miss; getWikiDescription then maps that null to undefined.  The
returned option is therefore none both when the title was never cached and
when its cached outcome was null. -/
def getWikiDescription (st : CacheState) (now : Nat) (title : String) :
    Option String × CacheState :=
  let r := st.wiki.get now title
  (match r.1 with
   | some (some s) => some s
   | _ => none,
   { st with wiki := r.2 })

def setWikiDescription (st : CacheState) (now : Nat) (title : String)
    (description : Option String) (ttl : Nat) : CacheState :=
  { st with wiki := st.wiki.set now title description ttl }

def getWikiDescriptionsBatch (st : CacheState) (now : Nat)
    (titles : List String) : List (String × Option String) × CacheState :=
  titles.foldl
    (fun (acc : List (String × Option String) × CacheState) title =>
      let r := getWikiDescription acc.2 now title
      (acc.1 ++ [(title, r.1)], r.2))
    ([], st)

def getCountryCache (st : CacheState) (now : Nat) (c : Country) :
    Option CountryCacheData × CacheState :=
  let r := st.country.get now c.code
  (r.1, { st with country := r.2 })

def setCountryCache (st : CacheState) (now : Nat) (c : Country)
    (data : CountryCacheData) : CacheState :=
  { st with country := st.country.set now c.code data COUNTRY_TTL }


/-! ## Batched validation client (wikipedia.client.ts) -/

/-- A knowledge-source page as consumed by the client: namespace, missing
flag, plain-text extract, category titles, and whether the disambiguation
page property is present. -/
structure QueryPage where
  ns : Int
  missing : Bool
  extract : Option String
  categories : List String
  disambiguation : Bool
deriving DecidableEq, Repr

/-- Deterministic model of the knowledge source: per-title normalization and
redirect chains and per-resolved-title pages.  failAll models total transport
failure of every request (after the per-request retries are exhausted). -/
structure WikiOracle where
  normalized : String → Option String
  redirects : String → Option String
  pages : String → Option QueryPage
  failAll : Bool

/-- The merged result of one batched query (fetchBatch):
normalization pairs, redirect pairs, and pages keyed by final title. -/
structure BatchResult where
  normalized : List (String × String)
  redirects : List (String × String)
  pagesByTitle : List (String × QueryPage)
deriving Repr

/-- resolveTitle of wikipedia.client.ts: input, through its normalization
pair if any, through its redirect pair if any. -/
def resolveTitle (input : String) (normalized redirects : List (String × String)) :
    String :=
  let norm := ((normalized.find? (fun p => p.1 == input)).map (fun p => p.2)).getD input
  ((redirects.find? (fun p => p.1 == norm)).map (fun p => p.2)).getD norm

/-- Assemble the merged batch result for a list of titles from the per-title
oracle.  Chunking and category continuation only merge per-title data, so
the merged result is the per-title assembly. -/
def fetchBatchData (o : WikiOracle) (titles : List String) : BatchResult :=
  let norm := fun t => ((o.normalized t).getD t)
  let fin := fun t => let n := norm t; (o.redirects n).getD n
  { normalized := titles.filterMap (fun t => (o.normalized t).map (fun n => (t, n)))
    redirects := titles.filterMap (fun t =>
      let n := norm t
      (o.redirects n).map (fun r => (n, r)))
    pagesByTitle := titles.foldl (fun acc t =>
      let f := fin t
      if acc.any (fun p => p.1 == f) then acc
      else match o.pages f with
        | some pg => acc ++ [(f, pg)]
        | none => acc) [] }

/-- MAX_TITLES of RATE_LIMITS.WIKIPEDIA_API. -/
def WIKI_MAX_TITLES : Nat := 20

/-- fetchBatch of wikipedia.client.ts.  A batch of at most MAX_TITLES titles
is one request whose failure (after retryRequest gives up) propagates; a
larger batch is chunked through the worker pool, where each chunk failure is
caught and its data simply missing from the merged result. -/
def fetchBatch (o : WikiOracle) (titles : List String) : Except Unit BatchResult :=
  if o.failAll then
    if titles.length ≤ WIKI_MAX_TITLES then .error ()
    else .ok { normalized := [], redirects := [], pagesByTitle := [] }
  else .ok (fetchBatchData o titles)

/-! Validation heuristics of wikipedia.client.ts.  The category and intro
regexes are modelled by executable prefix / substring / tokenized matchers
mirroring their alternations; matching is case-insensitive via lowercasing. -/

def startsWithStr (s p : String) : Bool := s.data.take p.data.length == p.data

/-- CAT_ALLOW of wikipedia.client.ts. -/
def catAllow (c : String) : Bool :=
  let lc := jsToLowerStr c
  let pref := fun (p : String) => startsWithStr lc p && lc.length > p.length
  pref "category:citie in " || pref "category:cities in " ||
  pref "category:citie and towns in " || pref "category:cities and towns in " ||
  pref "category:city counties of " ||
  pref "category:port cities and towns " ||
  pref "category:capitals of " || pref "category:capitals in " ||
  pref "category:municipalities in "

def catDenyHeadWords : List String :=
  ["districts", "suburbs", "neighbourhoods", "neighborhoods", "villages",
   "towns", "townships", "boroughs"]

def catDenyTailWords : List String :=
  ["railway stations", "airports", "power stations", "universities",
   "lakes", "rivers"]

/-- CAT_DENY of wikipedia.client.ts. -/
def catDeny (c : String) : Bool :=
  let lc := jsToLowerStr c
  (catDenyHeadWords.any (fun w =>
    let p := "category:" ++ w ++ " in "
    startsWithStr lc p && lc.length > p.length)) ||
  (startsWithStr lc "category:" &&
    catDenyTailWords.any (fun w =>
      let pat := (" " ++ w ++ " in ").data
      (List.range lc.data.length).any (fun i =>
        i + 1 ≥ "category:".length && subListAt lc.data pat i &&
        i + pat.length < lc.data.length)))

/-- The global parenthetical removal of firstSentence (each parenthesized
span without close parens inside becomes one space; an unmatched open paren
stays), driven by a character budget for structural recursion. -/
def removeParensAux : Nat → List Char → List Char
  | 0, cs => cs
  | _ + 1, [] => []
  | fuel + 1, c :: rest =>
    if c = '(' then
      let inner := rest.takeWhile (fun x => x ≠ ')')
      if inner.length < rest.length then
        ' ' :: removeParensAux fuel (rest.drop (inner.length + 1))
      else c :: rest
    else c :: removeParensAux fuel rest

/-- firstSentence of wikipedia.client.ts. -/
def firstSentence (s : String) : String :=
  let noParens := collapseWs (String.mk (removeParensAux s.data.length s.data))
  let m := noParens.data.takeWhile (fun c => c ∉ (['.', '!', '?'] : List Char))
  trimStr (String.mk (if m.isEmpty then noParens.data else m))

def introVerbs : List String := ["is", "was", "are", "were"]
def introArticles : List String := ["a", "an", "the"]

def negIntroNouns : List (List String) :=
  [["district"], ["county"], ["province"], ["region"], ["suburb"],
   ["neighbourhood"], ["neighborhood"], ["borough"], ["ward"], ["township"],
   ["village"], ["hamlet"], ["airport"], ["railway", "station"],
   ["metro", "station"], ["university"], ["power", "plant"],
   ["power", "station"], ["park"], ["lake"], ["river"]]

def posIntroNouns : List (List String) :=
  [["city"], ["capital"], ["metropolis"], ["municipality"],
   ["independent", "city"], ["city-state"], ["city", "state"],
   ["city-county"], ["city", "county"]]

/-- A token starts with the given noun word followed by a word boundary. -/
def tokHeadMatch (t n : String) : Bool :=
  t == n ||
  (startsWithStr t n && t.length > n.length &&
    !(isWordChar (t.data.getD n.length ' ')))

def matchNounPhrase (toks : List String) (i : Nat) : List String → Bool
  | [] => true
  | [n] => tokHeadMatch (toks.getD i "") n
  | n :: rest => toks.getD i "" == n && matchNounPhrase toks (i + 1) rest

/-- Tokenized model of the POS_INTRO / NEG_INTRO regexes: a copular verb, an
article, up to four letter-or-hyphen filler words, then one of the head-noun
phrases at a word boundary. -/
def introPattern (nouns : List (List String)) (intro : String) : Bool :=
  let toks := splitWsWords (jsToLowerStr intro)
  (List.range toks.length).any (fun i =>
    introVerbs.contains (toks.getD i "") &&
    introArticles.contains (toks.getD (i + 1) "") &&
    (List.range 5).any (fun k =>
      (List.range k).all (fun j =>
        let t := toks.getD (i + 2 + j) ""
        t ≠ "" && t.data.all (fun ch => ch.isAlpha || ch = '-')) &&
      nouns.any (fun np => matchNounPhrase toks (i + 2 + k) np)))

/-- validatePageIsCity of wikipedia.client.ts, returning the ok flag and the
reason string. -/
def validatePageIsCity (p : QueryPage) : Bool × String :=
  if p.missing then (false, "missing")
  else if p.ns ≠ 0 then (false, "not-article")
  else if p.disambiguation then (false, "disambiguation")
  else if p.categories.any catDeny then (false, "deny-category")
  else if p.categories.any catAllow then (true, "allow-category")
  else
    let introFull := trimStr (p.extract.getD "")
    if introFull = "" then (false, "no-intro")
    else
      let intro := firstSentence introFull
      if introPattern posIntroNouns intro then (true, "intro-cityish")
      else if introPattern negIntroNouns intro then (false, "intro-noncity")
      else (false, "no-signal")

/-! JavaScript Map model: insertion-ordered association list where set on an
existing key updates it in place. -/

def jmSet {α : Type} (m : List (String × α)) (k : String) (v : α) :
    List (String × α) :=
  if m.any (fun p => p.1 == k) then
    m.map (fun p => if p.1 == k then (k, v) else p)
  else m ++ [(k, v)]

def jmGet {α : Type} (m : List (String × α)) (k : String) : Option α :=
  (m.find? (fun p => p.1 == k)).map (fun p => p.2)

def jmHas {α : Type} (m : List (String × α)) (k : String) : Bool :=
  m.any (fun p => p.1 == k)

/-- getPage helper of getSummaries: resolve the input title and look it up,
with a case-insensitive fallback scan. -/
def getPage (input : String) (r : BatchResult) : Option QueryPage :=
  let resolved := resolveTitle input r.normalized r.redirects
  match r.pagesByTitle.find? (fun p => p.1 == resolved) with
  | some pr => some pr.2
  | none =>
    let lower := jsToLowerStr resolved
    (r.pagesByTitle.find? (fun p => jsToLowerStr p.1 == lower)).map (fun p => p.2)

/-- The expression (page.extract or empty).trim() or null. -/
def optTrimToNull (e : Option String) : Option String :=
  let t := trimStr (e.getD "")
  if t = "" then none else some t

/-- Result of one getSummaries call: the returned mapping, the cache state
after the call, and the title lists of the batched knowledge-source queries
it issued (one entry per fetchBatch invocation, including failed ones). -/
structure WikiRun where
  result : List (String × Option String)
  cache : CacheState
  calls : List (List String)
deriving Repr

/-- One step of the catch-all branch of getSummaries: a title not yet in the
result resolves to null, cached with the short five-minute TTL. -/
def catchStep (now : Nat) (acc : List (String × Option String) × CacheState)
    (t : String) : List (String × Option String) × CacheState :=
  if jmHas acc.1 t then acc
  else (jmSet acc.1 t none, setWikiDescription acc.2 now t none (5 * 60 * 1000))

/-- The catch-all branch of getSummaries: every requested title not yet in
the result resolves to null. -/
def wikiCatchAll (titles : List String) (result : List (String × Option String))
    (st : CacheState) (now : Nat) :
    List (String × Option String) × CacheState :=
  titles.foldl (catchStep now) (result, st)

/-- One step of the cache-check loop of getSummaries: a title the
description cache serves positively is settled into the result map, every
other title is appended to the uncached list. -/
def cacheCheckStep (cacheResults : List (String × Option String))
    (acc : List (String × Option String) × List String) (t : String) :
    List (String × Option String) × List String :=
  match jmGet cacheResults t with
  | some (some s) => (jmSet acc.1 t (some s), acc.2)
  | _ => (acc.1, acc.2 ++ [t])

/-- The cache-check phase of getSummaries: the batched cache lookup, the
initial result map of cache-served titles, the uncached titles in request
order, and the cache state after the lookups (whose lazy expiry may mutate
it). -/
def summariesCachePhase (st : CacheState) (now : Nat) (titles : List String) :
    (List (String × Option String) × List String) × CacheState :=
  let cr := getWikiDescriptionsBatch st now titles
  (titles.foldl (cacheCheckStep cr.1) ([], []), cr.2)

/-- The uncached titles of a getSummaries call: the requested titles the
description cache cannot serve, in request order. -/
def summariesUncached (st : CacheState) (now : Nat) (titles : List String) :
    List String :=
  (summariesCachePhase st now titles).1.2

/-- One step of pass 1 of getSummaries: classify the page resolved for one
input title, either settling it in the result map (caching the outcome) or
queueing it for the retry pass. -/
def summariesPass1Step (country : Country) (now : Nat) (r1 : BatchResult)
    (acc : List (String × Option String) × List (String × String) ×
      List String × CacheState) (input : String) :
    List (String × Option String) × List (String × String) ×
      List String × CacheState :=
  let (result, retryMap, unresolved, st) := acc
  match getPage input r1 with
  | none =>
    (result, jmSet retryMap input input, unresolved ++ [input], st)
  | some page =>
    let v := validatePageIsCity page
    if v.2 == "disambiguation" then
      let newInput := input ++ ", " ++ countryLabel country
      (result, jmSet retryMap newInput input, unresolved ++ [newInput], st)
    else if v.1 then
      let description := optTrimToNull page.extract
      (jmSet result input description, retryMap, unresolved,
       setWikiDescription st now input description WIKIPEDIA_TTL)
    else if v.2 == "missing" || v.2 == "no-intro" || v.2 == "no-signal" then
      (result, jmSet retryMap input input, unresolved ++ [input], st)
    else
      (jmSet result input none, retryMap, unresolved,
       setWikiDescription st now input none WIKIPEDIA_TTL)

/-- The retry query one pass-1 step queues for an input title, if any: it
depends only on the page the first batch resolves for the input, mirroring
the branch structure of summariesPass1Step. -/
def pass1Queued (country : Country) (r1 : BatchResult) (input : String) :
    Option String :=
  match getPage input r1 with
  | none => some input
  | some page =>
    let v := validatePageIsCity page
    if v.2 == "disambiguation" then some (input ++ ", " ++ countryLabel country)
    else if v.1 then none
    else if v.2 == "missing" || v.2 == "no-intro" || v.2 == "no-signal" then
      some input
    else none

/-- The outcome one pass-1 step settles for an input title, if any (the
complement of pass1Queued): the validated description, or null for a denied
or non-article page. -/
def pass1Settled (r1 : BatchResult) (input : String) :
    Option (Option String) :=
  match getPage input r1 with
  | none => none
  | some page =>
    let v := validatePageIsCity page
    if v.2 == "disambiguation" then none
    else if v.1 then some (optTrimToNull page.extract)
    else if v.2 == "missing" || v.2 == "no-intro" || v.2 == "no-signal" then
      none
    else some none

/-- The retry fold map of getSummaries: the unresolved queries keyed by
their ASCII folds, later entries overwriting earlier ones that fold to the
same string. -/
def buildFoldMap (unresolved : List String) : List (String × String) :=
  unresolved.foldl (fun m q => jmSet m (asciiFold q false) q) []

/-- One step of pass 2 of getSummaries: settle the original title behind one
folded retry query, as null unless the page validates. -/
def summariesPass2Step (now : Nat) (asciiFoldMap retryMap : List (String × String))
    (r2 : BatchResult) (acc : List (String × Option String) × CacheState)
    (foldedTitle : String) : List (String × Option String) × CacheState :=
  let (result, st) := acc
  let queryTitle := (jmGet asciiFoldMap foldedTitle).getD ""
  let originalTitle := (jmGet retryMap queryTitle).getD ""
  match getPage foldedTitle r2 with
  | none =>
    (jmSet result originalTitle none,
     setWikiDescription st now originalTitle none WIKIPEDIA_TTL)
  | some page =>
    let v := validatePageIsCity page
    let description :=
      if v.1 then optTrimToNull page.extract else none
    (jmSet result originalTitle description,
     setWikiDescription st now originalTitle description WIKIPEDIA_TTL)

/-- The key pass 2 settles for one folded retry query: the original title
recovered through the fold map and the retry map (with the JavaScript
non-null assertions modelled as default lookups). -/
def p2orig (asciiFoldMap retryMap : List (String × String)) (ft : String) :
    String :=
  (jmGet retryMap ((jmGet asciiFoldMap ft).getD "")).getD ""

/-- The value pass 2 settles for one folded retry query: null when no page
resolves or the page fails validation, the trimmed extract otherwise. -/
def pass2Val (r2 : BatchResult) (ft : String) : Option String :=
  match getPage ft r2 with
  | none => none
  | some page =>
    if (validatePageIsCity page).1 then optTrimToNull page.extract else none

/-- getSummaries of wikipedia.client.ts. -/
def getSummaries (o : WikiOracle) (titles : List String) (country : Country)
    (st : CacheState) (now : Nat) : WikiRun :=
  if titles.isEmpty then { result := [], cache := st, calls := [] }
  else
    let cp := summariesCachePhase st now titles
    let result := cp.1.1
    let uncachedTitles := cp.1.2
    let st1 := cp.2
    if uncachedTitles.isEmpty then
      { result := result, cache := st1, calls := [] }
    else
      match fetchBatch o uncachedTitles with
      | .error _ =>
        let ca := wikiCatchAll titles result st1 now
        { result := ca.1, cache := ca.2, calls := [uncachedTitles] }
      | .ok r1 =>
        let pass1 := uncachedTitles.foldl (summariesPass1Step country now r1)
          (result, [], [], st1)
        let result1 := pass1.1
        let retryMap := pass1.2.1
        let unresolved := pass1.2.2.1
        let st2 := pass1.2.2.2
        if unresolved.isEmpty then
          { result := result1, cache := st2, calls := [uncachedTitles] }
        else
          let asciiFoldMap := buildFoldMap unresolved
          let foldedTitles := asciiFoldMap.map (fun p => p.1)
          match fetchBatch o foldedTitles with
          | .error _ =>
            let ca := wikiCatchAll titles result1 st2 now
            { result := ca.1, cache := ca.2,
              calls := [uncachedTitles, foldedTitles] }
          | .ok r2 =>
            let pass2 := foldedTitles.foldl
              (summariesPass2Step now asciiFoldMap retryMap r2) (result1, st2)
            { result := pass2.1, cache := pass2.2,
              calls := [uncachedTitles, foldedTitles] }

/-- The unresolved retry queries pass 1 of a getSummaries call queues (empty
when the first batched query fails or everything is served from cache). -/
def summariesUnresolved (o : WikiOracle) (titles : List String)
    (country : Country) (st : CacheState) (now : Nat) : List String :=
  match fetchBatch o (summariesUncached st now titles) with
  | .error _ => []
  | .ok r1 =>
    (summariesUncached st now titles).filterMap (pass1Queued country r1)

/-- The folded retry queries of pass 2 of a getSummaries call, in the order
the second batched query issues them. -/
def summariesFoldedTitles (o : WikiOracle) (titles : List String)
    (country : Country) (st : CacheState) (now : Nat) : List String :=
  (buildFoldMap (summariesUnresolved o titles country st now)).map
    (fun p => p.1)


/-! ## Aggregation engine (city.service.ts, paged getMostPollutedByCountry) -/

/-- cityKey of city.service.ts: ASCII-folded, lowercased name plus country. -/
def cityKey (name : String) (c : Country) : String :=
  jsToLowerStr (asciiFold name true) ++ "|" ++ c.code

/-- The two-word wiki-title formatting of city.service.ts: when splitting on
a single literal space yields exactly two parts, the city is re-split on
whitespace runs and joined with an underscore after capitalizing each word
(the else arm covers the case where the two split disagree, as with tabs). -/
def capWord (w : String) : String :=
  match w.data with
  | [] => w
  | ch :: rest => String.mk (jsUpperChar ch :: (rest.map jsLowerChar))

def makeWikiTitle (city : String) : String :=
  if (splitOnPred (fun ch => ch = ' ') city.data).length == 2 then
    let parts := splitWsWords city
    match parts with
    | [p1, p2] => capWord p1 ++ "_" ++ capWord p2
    | _ => String.intercalate " " (parts.map capWord)
  else city

/-- Stable insertion for descending pollution order: an element is placed
before the first strictly smaller or equal-valued element coming later in
the original list, matching the stable sort with comparator b minus a. -/
def insertByPollution (x : CityResult) : List CityResult → List CityResult
  | [] => [x]
  | y :: ys =>
    if x.pollution ≥ y.pollution then x :: y :: ys
    else y :: insertByPollution x ys

def sortByPollutionDesc (l : List CityResult) : List CityResult :=
  l.foldr insertByPollution []

/-- Array.prototype.slice with nonnegative clamped bounds. -/
def listSlice {α : Type} (l : List α) (s e : Nat) : List α :=
  (l.drop s).take (e - s)

/-- The deterministic upstream environment of one run: the measurement source
as a per-page response (or unrecoverable error), and the knowledge source. -/
structure Env where
  pollu : Country → Nat → Except String PollutionResponse
  wiki : WikiOracle

/-- Log of outbound activity in one request: actual upstream measurement
requests (page-cache misses), all fetchCountryPage invocations, and the
knowledge-source batch queries. -/
structure RunLog where
  polluUpstream : List (Country × Nat)
  polluCalls : List (Country × Nat)
  wikiCalls : List (List String)
deriving DecidableEq, Repr

def emptyLog : RunLog := { polluUpstream := [], polluCalls := [], wikiCalls := [] }

/-- fetchCountryPage of polluApi.client.ts: page cache first, then the
authenticated rate-gated upstream call, then cache the response.  The auth
session and the rate gate (modelled separately as rateLimitedRequest) affect
timing only, not which pages are requested nor the data returned on success;
an upstream failure is surfaced as a thrown error carrying the state at the
point of failure, since the cache mutations already performed persist. -/
def fetchCountryPage (env : Env) (st : CacheState) (now : Nat) (c : Country)
    (page limit : Nat) (log : RunLog) :
    Except (String × CacheState × RunLog) (PollutionResponse × CacheState × RunLog) :=
  let log := { log with polluCalls := log.polluCalls ++ [(c, page)] }
  let r := getPollutionPage st now c page limit
  match r.1 with
  | some resp => .ok (resp, r.2, log)
  | none =>
    let st := r.2
    let log := { log with polluUpstream := log.polluUpstream ++ [(c, page)] }
    match env.pollu c page with
    | .error e => .error (e, st, log)
    | .ok resp => .ok (resp, setPollutionPage st now c page limit resp, log)

/-- The candidate batch built from one page of results: classification,
pollution parsing, dedup against the seen key set, wiki-title formatting.
Returns the batch entries (city, pollution, wikiTitle) and the updated seen
set. -/
def buildBatch (c : Country) (rows : List PollutionRow) (seen : List String) :
    List (String × Int × String) × List String :=
  rows.foldl
    (fun (acc : List (String × Int × String) × List String) row =>
      match parsePollution row.pollution with
      | none => acc
      | some pollution =>
        match classify (row.name.getD "") c.code with
        | .keep city _ _ _ | .salvage city _ _ _ =>
          let key := cityKey city c
          if acc.2.contains key then acc
          else (acc.1 ++ [(city, pollution, makeWikiTitle city)], acc.2 ++ [key])
        | .reject _ _ _ => acc)
    ([], seen)

/-- The accumulation loop of getMostPollutedByCountry (the while loop pulling
pages until enough cities are gathered or pages are exhausted), with a fuel
parameter for the a-priori unbounded iteration; fuel exhaustion exits the
loop as if the while condition failed. -/
def accumLoop (env : Env) (c : Country) (neededCities : Nat) (now : Nat) :
    Nat → List CityResult → List String → Nat → Option Nat → CacheState → RunLog →
    Except (String × CacheState × RunLog) (List CityResult × CacheState × RunLog)
  | 0, chosen, _, _, _, st, log => .ok (chosen, st, log)
  | fuel + 1, chosen, seen, currentPage, totalPages, st, log =>
    if chosen.length < neededCities then
      if (match totalPages with
          | some t => decide (t ≠ 0 ∧ currentPage > t)
          | none => false) then
        .ok (chosen, st, log)
      else
        match fetchCountryPage env st now c currentPage 50 log with
        | .error e => .error e
        | .ok (resp, st, log) =>
          let totalPages := match totalPages with
            | some t => some t
            | none => some ((resp.meta.bind PollutionMeta.totalPages).getD 1)
          let bb := buildBatch c (resp.results.getD []) seen
          let batch := bb.1
          let seen := bb.2
          if batch.isEmpty then
            if currentPage ≥ totalPages.getD 1 then
              let st := setCountryCache st now c
                { cities := chosen, lastPage := currentPage - 1,
                  totalPages := totalPages, timestamp := now, isComplete := true }
              .ok (chosen, st, log)
            else
              accumLoop env c neededCities now fuel chosen seen (currentPage + 1)
                totalPages st log
          else
            let titles := batch.map (fun b => b.2.2)
            let wr := getSummaries env.wiki titles c st now
            let st := wr.cache
            let log := { log with wikiCalls := log.wikiCalls ++ wr.calls }
            let newCities := batch.foldl
              (fun acc b =>
                let description := trimStr
                  (match jmGet wr.result b.2.2 with
                   | some (some s) => s
                   | _ => "")
                if description ≠ "" then
                  acc ++ [{ country := c, city := b.1, pollution := b.2.1,
                            description := some description : CityResult }]
                else acc)
              []
            let chosen := chosen ++ newCities
            let isComplete := decide (currentPage ≥ totalPages.getD 1)
            let st := setCountryCache st now c
              { cities := chosen, lastPage := currentPage,
                totalPages := totalPages, timestamp := now, isComplete := isComplete }
            if currentPage ≥ totalPages.getD 1 then .ok (chosen, st, log)
            else
              accumLoop env c neededCities now fuel chosen seen (currentPage + 1)
                totalPages st log
    else .ok (chosen, st, log)

structure ServiceResult where
  cities : List CityResult
  hasMore : Bool
deriving DecidableEq, Repr

/-- The resume page of a request: lastPage plus one when a country cache
entry is live, else one. -/
def resumePage (entry : Option CountryCacheData) : Nat :=
  match entry with
  | some e => e.lastPage + 1
  | none => 1

/-- The totalPages a run starts from: the stored value passed through the
or-null coercion of the source (which turns a stored zero into null). -/
def startTotalPages (entry : Option CountryCacheData) : Option Nat :=
  match entry with
  | some e =>
    match e.totalPages with
    | some t => if t = 0 then none else some t
    | none => none
  | none => none

/-- The slice offset of the paged service: (page - 1) * limit on the raw
requested limit. -/
def sliceOffset (limit page : Nat) : Nat := (page - 1) * limit

/-- The clamped slice width of the paged service: limit clamped to the range
from one to fifty. -/
def sliceWant (limit : Nat) : Nat := max 1 (min limit 50)

/-- getMostPollutedByCountry of city.service.ts (the paged variant): offset
from the raw limit, want clamped to one through fifty, cache-hit fast path,
accumulation loop, final stable sort and slice. -/
def getMostPollutedByCountry (env : Env) (st : CacheState) (now : Nat)
    (c : Country) (limit page : Nat) (fuel : Nat) :
    Except (String × CacheState × RunLog) (ServiceResult × CacheState × RunLog) :=
  let offset := sliceOffset limit page
  let want := sliceWant limit
  let rc := getCountryCache st now c
  let cacheEntry := rc.1
  let st := rc.2
  match cacheEntry with
  | some entry =>
    if entry.cities.length ≥ offset + want then
      .ok ({ cities := listSlice (sortByPollutionDesc entry.cities) offset (offset + want),
             hasMore := decide (offset + want < entry.cities.length) },
           st, emptyLog)
    else
      match accumLoop env c (offset + want) now fuel entry.cities
        (entry.cities.map (fun r => cityKey r.city r.country))
        (resumePage (some entry)) (startTotalPages (some entry)) st emptyLog with
      | .error e => .error e
      | .ok (chosen, st, log) =>
        let endIndex := min (offset + want) chosen.length
        .ok ({ cities := listSlice (sortByPollutionDesc chosen) offset endIndex,
               hasMore := decide (endIndex < chosen.length) }, st, log)
  | none =>
    match accumLoop env c (offset + want) now fuel [] [] 1 none st emptyLog with
    | .error e => .error e
    | .ok (chosen, st, log) =>
      let endIndex := min (offset + want) chosen.length
      .ok ({ cities := listSlice (sortByPollutionDesc chosen) offset endIndex,
             hasMore := decide (endIndex < chosen.length) }, st, log)

/-! ## Rate-limited request (polluApi.client.ts, rateLimitedRequest)

Virtual-time model of the sliding-window gate and the 429-retry loop: the
state carries the recorded request timestamps, the clock (advanced only by
the sleeps the code performs), and the log of instants at which actual
upstream request attempts were issued.  Each call is driven by the scripted
outcome of its successive attempts. -/

inductive RLOutcome where
  | ok
  | rate429 (retryAfter : Option Nat)
  | fail
deriving DecidableEq, Repr

structure RLState where
  requestTimes : List Nat
  now : Nat
  attempts : List Nat
deriving DecidableEq, Repr

def RATE_MAX_REQUESTS : Nat := 5
def RATE_WINDOW_MS : Nat := 10000
def RATE_MAX_RETRIES : Nat := 3

/-- The exponential backoff of the 429 branch: an upstream Retry-After
header (seconds) wins, else the doubling base delay capped at thirty
seconds. -/
def backoffDelay (retryAfter : Option Nat) (attempt : Nat) : Nat :=
  match retryAfter with
  | some r => r * 1000
  | none => min (2000 * 2 ^ (attempt - 1)) 30000

/-- The retry loop of rateLimitedRequest: up to three attempts, sleeping the
backoff delay between 429 responses; the last 429 or any other failure
throws.  Returns success flag and state. -/
def rlRetryLoop : List RLOutcome → Nat → RLState → Bool × RLState
  | [], _, st => (false, { st with attempts := st.attempts ++ [st.now] })
  | o :: rest, attempt, st =>
    let st := { st with attempts := st.attempts ++ [st.now] }
    match o with
    | .ok => (true, st)
    | .fail => (false, st)
    | .rate429 retryAfter =>
      if attempt == RATE_MAX_RETRIES then (false, st)
      else
        let st := { st with now := st.now + backoffDelay retryAfter attempt }
        rlRetryLoop rest (attempt + 1) st

/-- rateLimitedRequest of polluApi.client.ts: prune timestamps outside the
window, suspend until the oldest exits the window plus a 100 ms buffer when
the window is full, record the issue time, then run the retry loop. -/
def rateLimitedRequest (outcomes : List RLOutcome) (st : RLState) :
    Bool × RLState :=
  let times := st.requestTimes.filter (fun t => st.now - t < RATE_WINDOW_MS)
  let st := { st with requestTimes := times }
  let st :=
    if times.length ≥ RATE_MAX_REQUESTS then
      let oldest := times.foldl Nat.min (times.headD st.now)
      let waitTime := RATE_WINDOW_MS - (st.now - oldest)
      if waitTime > 0 then { st with now := st.now + waitTime + 100 } else st
    else st
  let st := { st with requestTimes := st.requestTimes ++ [st.now] }
  rlRetryLoop outcomes 1 st

/-- A sequence of rapid sequential calls through the gate, each with its own
scripted attempt outcomes. -/
def runRateLimitedCalls (scripts : List (List RLOutcome)) (st : RLState) : RLState :=
  scripts.foldl (fun st sc => (rateLimitedRequest sc st).2) st

/-- Number of upstream request attempts issued in the rolling window
starting at instant s. -/
def attemptsInWindow (attempts : List Nat) (s : Nat) : Nat :=
  (attempts.filter (fun t => s ≤ t && t < s + RATE_WINDOW_MS)).length


/-! ## Extraction helpers for run results -/

def exState {α : Type}
    (r : Except (String × CacheState × RunLog) (α × CacheState × RunLog)) :
    CacheState :=
  match r with
  | .ok (_, st, _) => st
  | .error (_, st, _) => st

def exLog {α : Type}
    (r : Except (String × CacheState × RunLog) (α × CacheState × RunLog)) :
    RunLog :=
  match r with
  | .ok (_, _, log) => log
  | .error (_, _, log) => log

def exCities
    (r : Except (String × CacheState × RunLog) (ServiceResult × CacheState × RunLog)) :
    List CityResult :=
  match r with
  | .ok (res, _, _) => res.cities
  | .error _ => []

/-- The plain verdict tag of a classifier result. -/
inductive Verdict where
  | keep | salvage | reject
deriving DecidableEq, Repr

def verdictOf : FilterResult → Verdict
  | .keep _ _ _ _ => .keep
  | .salvage _ _ _ _ => .salvage
  | .reject _ _ _ => .reject

/-! ## Concrete scenario environments -/

/-- A knowledge source where every title is unknown. -/
def wikiAllMissing : WikiOracle :=
  { normalized := fun _ => none
    redirects := fun _ => none
    pages := fun _ => none
    failAll := false }

/-- Scenario E1 (claims C1 and C2): two upstream pages for PL; page one
holds the single candidate Alpha (which the knowledge source cannot
describe), page two repeats Alpha. -/
def env1 : Env :=
  { pollu := fun c page =>
      if c = Country.PL ∧ page = 1 then
        .ok { meta := some { page := 1, totalPages := some 2 }
              results := some [{ name := some "Alpha", pollution := .num 5 }] }
      else if c = Country.PL ∧ page = 2 then
        .ok { meta := some { page := 2, totalPages := some 2 }
              results := some [{ name := some "Alpha", pollution := .num 4 }] }
      else .error "Pollution fetch failed: 404"
    wiki := wikiAllMissing }

def run1A : Except (String × CacheState × RunLog) (ServiceResult × CacheState × RunLog) :=
  getMostPollutedByCountry env1 initialCacheState 0 Country.PL 1 1 10

def run1B : Except (String × CacheState × RunLog) (ServiceResult × CacheState × RunLog) :=
  getMostPollutedByCountry env1 (exState run1A) 1000 Country.PL 1 1 10

/-- Scenario E3 (claim C3): two upstream pages for PL, both with no usable
rows, so the country entry completes with lastPage one below totalPages. -/
def env3 : Env :=
  { pollu := fun c page =>
      if c = Country.PL ∧ page = 1 then
        .ok { meta := some { page := 1, totalPages := some 2 }
              results := some [] }
      else if c = Country.PL ∧ page = 2 then
        .ok { meta := some { page := 2, totalPages := some 2 }
              results := some [] }
      else .error "Pollution fetch failed: 404"
    wiki := wikiAllMissing }

def run3A : Except (String × CacheState × RunLog) (ServiceResult × CacheState × RunLog) :=
  getMostPollutedByCountry env3 initialCacheState 0 Country.PL 1 1 10

/-- The second E3 request happens 6 minutes later: the five-minute page
cache has expired while the two-hour country entry is still live. -/
def run3B : Except (String × CacheState × RunLog) (ServiceResult × CacheState × RunLog) :=
  getMostPollutedByCountry env3 (exState run3A) 360001 Country.PL 1 1 10

/-- Scenario E9 (claim C9): page one yields the described city Alpha, page
two fails unrecoverably. -/
def env9 : Env :=
  { pollu := fun c page =>
      if c = Country.PL ∧ page = 1 then
        .ok { meta := some { page := 1, totalPages := some 3 }
              results := some [{ name := some "Alpha", pollution := .num 5 }] }
      else .error "Pollution fetch failed: 503"
    wiki :=
      { normalized := fun _ => none
        redirects := fun _ => none
        pages := fun t =>
          if t = "Alpha" then
            some { ns := 0, missing := false
                   extract := some "Alpha is a city in Poland."
                   categories := [], disambiguation := false }
          else none
        failAll := false } }

def run9A : Except (String × CacheState × RunLog) (ServiceResult × CacheState × RunLog) :=
  getMostPollutedByCountry env9 initialCacheState 0 Country.PL 2 1 10

def run9B : Except (String × CacheState × RunLog) (ServiceResult × CacheState × RunLog) :=
  getMostPollutedByCountry env9 (exState run9A) 1000 Country.PL 2 1 10

/-- Scenario W2 (claim C2): one unknown title resolved to null, then asked
again later within every TTL. -/
def wrun2A : WikiRun :=
  getSummaries wikiAllMissing ["Alpha"] Country.PL initialCacheState 0

def wrun2B : WikiRun :=
  getSummaries wikiAllMissing ["Alpha"] Country.PL wrun2A.cache 1000

/-- Scenario W6 (claim C6): two distinct unresolved titles whose ASCII folds
collide, plus a control pair without collision. -/
def wrun6 : WikiRun :=
  getSummaries wikiAllMissing ["Łódź", "Lodz"] Country.PL initialCacheState 0

def wrun6ctrl : WikiRun :=
  getSummaries wikiAllMissing ["Alpha", "Beta"] Country.PL initialCacheState 0

/-- A knowledge source with one described city page for Gamma. -/
def wikiGamma : WikiOracle :=
  { normalized := fun _ => none
    redirects := fun _ => none
    pages := fun t =>
      if t = "Gamma" then
        some { ns := 0, missing := false
               extract := some "Gamma is a city in Poland."
               categories := [], disambiguation := false }
      else none
    failAll := false }

def wrun6pos : WikiRun :=
  getSummaries wikiGamma ["Gamma"] Country.PL initialCacheState 0

/-- Scenario W7 (claim C7): Ambersville resolves to a disambiguation page in
both passes. -/
def wikiDisambig : WikiOracle :=
  { normalized := fun _ => none
    redirects := fun _ => none
    pages := fun t =>
      if t = "Ambersville" ∨ t = "Ambersville, Poland" then
        some { ns := 0, missing := false
               extract := some "Ambersville may refer to:"
               categories := [], disambiguation := true }
      else none
    failAll := false }

def wrun7 : WikiRun :=
  getSummaries wikiDisambig ["Ambersville"] Country.PL initialCacheState 0

/-- Scenario W7X (claim C7 collision corner): the disambiguated retry query
of one title folds onto another unresolved title. -/
def wikiLodzDisambig : WikiOracle :=
  { normalized := fun _ => none
    redirects := fun _ => none
    pages := fun t =>
      if t = "Łódź" then
        some { ns := 0, missing := false
               extract := some "Łódź may refer to:"
               categories := [], disambiguation := true }
      else none
    failAll := false }

def wrun7x : WikiRun :=
  getSummaries wikiLodzDisambig ["Łódź", "Lodz, Poland"] Country.PL
    initialCacheState 0

/-- Scenario R5 (claim C5): rate-gate call scripts. -/
def rlStart : RLState := { requestTimes := [], now := 0, attempts := [] }

/-- Six rapid calls, the first five each throttled once then succeeding. -/
def rlScripts429 : List (List RLOutcome) :=
  List.replicate 5 [RLOutcome.rate429 none, RLOutcome.ok] ++ [[RLOutcome.ok]]

/-- Six rapid calls, all succeeding immediately. -/
def rlScriptsOk : List (List RLOutcome) :=
  List.replicate 6 [RLOutcome.ok]


/-- A later request serving the positive cached description of Gamma. -/
def wrun2pos : WikiRun :=
  getSummaries wikiGamma ["Gamma"] Country.PL wrun6pos.cache 1000

/-! ## Claim theorems -/

/-- C4 counterexample: classify of the record named Frankfurt am Main with
locale DE does not return the accept-as-is (keep) verdict claimed: the
title-casing pass uppercases the interior word am, the base differs from the
original, and the verdict is accept-cleaned (salvage). -/
theorem claim_C4_counterexample :
    verdictOf (classify "Frankfurt am Main" "DE") ≠ Verdict.keep := by
  decide

/-- C4 (amended): classify of Monitoring Station 3 with locale PL discards
with reason facility/admin; classify of Warsaw (Zone) with locale PL returns
accept-cleaned (salvage) with cleaned name Warsaw; and classify of Frankfurt
am Main with locale DE returns accept-cleaned (salvage) with cleaned name
Frankfurt Am Main and reason normalized, not accept-as-is. -/
theorem claim_C4 :
    classify "Monitoring Station 3" "PL" =
      FilterResult.reject "facility/admin" 1 "Monitoring Station 3" ∧
    classify "Warsaw (Zone)" "PL" =
      FilterResult.salvage "Warsaw" "Warsaw" "salvaged:paren" (7 / 10) ∧
    classify "Frankfurt am Main" "DE" =
      FilterResult.salvage "Frankfurt Am Main" "Frankfurt Am Main"
        "normalized:" (7 / 10) :=
  ⟨rfl, rfl, rfl⟩

/-- C8: toNameCase does not keep the locale function words lowercase: the
particle-lowercasing step of handleLocaleSpecificCases runs before the
capitalize-after-separator pass, which re-capitalizes every interior word, so
Spanish de and la and French en surface capitalized, contradicting the
stated (and source-commented) behavior.  The theorem evaluates the code at
the failing inputs. -/
theorem claim_C8 :
    toNameCase "Jerez de la Frontera" "ES" = "Jerez De La Frontera" ∧
    toNameCase "Aix en Provence" "FR" = "Aix En Provence" ∧
    handleLocaleSpecificCases "jerez de la frontera" "es" =
      "jerez de la frontera" :=
  ⟨rfl, rfl, rfl⟩

/-- C1: evaluation of the failing scenario.  Two identical requests against
a two-page upstream (page one holding the sole candidate Alpha, unresolvable
by the knowledge source, page two repeating it): both runs return the same
empty city list and the second run performs zero upstream measurement
requests, but the second run issues two knowledge-source batch queries
(Alpha was cached as null, which the description-cache read path cannot
distinguish from a miss), contradicting the zero-knowledge-source-calls part
of the claim. -/
theorem claim_C1_failing_run :
    exCities run1A = exCities run1B ∧
    (exLog run1B).polluUpstream = [] ∧
    (exLog run1B).wikiCalls = [["Alpha"], ["Alpha"]] :=
  ⟨rfl, rfl, rfl⟩

/-- C2: evaluation of the failing scenario.  The first getSummaries call
resolves Alpha to null and stores that null in the description cache with
the full TTL; the immediately following call nevertheless issues two fresh
knowledge-source batch queries for Alpha, because getWikiDescription maps a
stored null to undefined.  A positive cached outcome (Gamma) is served with
no queries, showing the failure is specific to null outcomes. -/
theorem claim_C2_failing_run :
    wrun2A.result = [("Alpha", none)] ∧
    wrun2A.cache.wiki.entries =
      [("Alpha", { data := none, timestamp := 0, ttl := WIKIPEDIA_TTL })] ∧
    wrun2B.calls = [["Alpha"], ["Alpha"]] ∧
    wrun2pos.calls = [] ∧
    wrun2pos.result = [("Gamma", some "Gamma is a city in Poland.")] :=
  ⟨rfl, rfl, rfl, rfl, rfl⟩

/-- C3 counterexample: after a run that completes a country entry on an
empty final page (storing lastPage one below totalPages), a request six
minutes later, while the two-hour country entry is still live and marked
complete, re-fetches page two from the upstream measurement source (the
five-minute page cache has expired), contradicting the claim that no further
upstream pages are fetched until the country entry expires. -/
theorem claim_C3_counterexample :
    ((getCountryCache (exState run3A) 360001 Country.PL).1.map
        CountryCacheData.isComplete) = some true ∧
    (exLog run3B).polluUpstream = [(Country.PL, 2)] :=
  ⟨rfl, rfl⟩

/-- C6 counterexample: for the requested titles Lodz-with-diacritics and
plain Lodz, both unresolved, the returned mapping holds a single entry (for
plain Lodz); the first title receives no entry at all because both ASCII-fold
to the same retry query, contradicting the exactly-one-entry-per-title
guarantee. -/
theorem claim_C6_counterexample :
    wrun6.result = [("Lodz", none)] ∧
    jmGet wrun6.result "Łódź" = none ∧
    "Łódź" ∈ (["Łódź", "Lodz"] : List String) :=
  ⟨rfl, rfl, by decide⟩

/-- C7 counterexample: the title Lodz-with-diacritics resolves to a
disambiguation page and is queued for the label-appended retry, but a second
requested title equal to the folded retry query displaces it in the retry
fold map, so the still-ambiguous name ends with no entry at all instead of
the claimed null resolution. -/
theorem claim_C7_counterexample :
    jmGet wrun7x.result "Łódź" = none ∧
    wrun7x.result = [("Lodz, Poland", none)] ∧
    "Łódź" ∈ (["Łódź", "Lodz, Poland"] : List String) :=
  ⟨rfl, rfl, by decide⟩

/-- C5 counterexample: five rapid calls each throttled once and retried
violate the rolling-window bound: the retry attempts bypass the gate, and
the window starting at instant zero holds nine upstream attempts, more than
the five allowed. -/
theorem claim_C5_counterexample :
    RATE_MAX_REQUESTS <
      attemptsInWindow (runRateLimitedCalls rlScripts429 rlStart).attempts 0 := by
  decide

/-- C5 (amended): six rapid calls with no throttling responses make the
sixth call suspend until the oldest recorded timestamp exits the ten-second
window plus the hundred-millisecond buffer (its attempt is issued at instant
10100), and counting gated first attempts only, no rolling ten-second window
ever holds more than five upstream attempts; the bound does not extend to
attempts issued by the 429-retry path, which bypass the gate. -/
theorem claim_C5 :
    (runRateLimitedCalls rlScriptsOk rlStart).attempts = [0, 0, 0, 0, 0, 10100] ∧
    ∀ s : Nat,
      attemptsInWindow (runRateLimitedCalls rlScriptsOk rlStart).attempts s ≤
        RATE_MAX_REQUESTS := by
  refine ⟨rfl, fun s => ?_⟩
  have h : (runRateLimitedCalls rlScriptsOk rlStart).attempts =
      [0, 0, 0, 0, 0, 10100] := rfl
  rw [h]
  match s with
  | 0 => decide
  | n + 1 =>
    have h0 : (decide (n + 1 ≤ 0) : Bool) = false := by simp
    simp only [attemptsInWindow, RATE_WINDOW_MS, RATE_MAX_REQUESTS, List.filter,
      h0, Bool.false_and]
    split <;> simp


/-! ## Preservation and log lemmas -/

/-- Whether a run failed with an error. -/
def runFailed {α : Type}
    (r : Except (String × CacheState × RunLog) (α × CacheState × RunLog)) : Bool :=
  match r with
  | .error _ => true
  | .ok _ => false

theorem fetchCountryPage_polluCalls (env : Env) (st : CacheState) (now : Nat)
    (c : Country) (p limit : Nat) (log : RunLog) :
    (exLog (fetchCountryPage env st now c p limit log)).polluCalls =
      log.polluCalls ++ [(c, p)] := by
  unfold fetchCountryPage
  rcases h : (getPollutionPage st now c p limit).1 with _ | resp
  · simp only [h]
    rcases henv : env.pollu c p with e | resp2 <;> simp [henv, exLog]
  · simp [h, exLog]

theorem fetchCountryPage_country (env : Env) (st : CacheState) (now : Nat)
    (c : Country) (p limit : Nat) (log : RunLog) :
    (exState (fetchCountryPage env st now c p limit log)).country = st.country := by
  unfold fetchCountryPage
  rcases h : (getPollutionPage st now c p limit).1 with _ | resp
  · simp only [h]
    rcases henv : env.pollu c p with e | resp2 <;>
      simp [henv, exState, getPollutionPage, setPollutionPage]
  · simp only [h]
    simp [exState, getPollutionPage]

/-- Invariant preservation through a left fold. -/
theorem foldl_inv {α β : Type} (P : β → Prop) (f : β → α → β) (l : List α)
    (b : β) (hstep : ∀ b a, P b → P (f b a)) (hinit : P b) :
    P (l.foldl f b) := by
  induction l generalizing b with
  | nil => exact hinit
  | cons a l ih => exact ih (f b a) (hstep b a hinit)

theorem getWikiDescriptionsBatch_country (st : CacheState) (now : Nat)
    (titles : List String) :
    (getWikiDescriptionsBatch st now titles).2.country = st.country := by
  unfold getWikiDescriptionsBatch
  exact foldl_inv
    (fun (acc : List (String × Option String) × CacheState) =>
      acc.2.country = st.country)
    _ titles ([], st) (fun b a hb => hb) rfl

theorem wikiCatchAll_country (titles : List String)
    (result : List (String × Option String)) (st : CacheState) (now : Nat) :
    (wikiCatchAll titles result st now).2.country = st.country := by
  unfold wikiCatchAll
  refine foldl_inv
    (fun (acc : List (String × Option String) × CacheState) =>
      acc.2.country = st.country)
    _ titles (result, st) (fun b a hb => ?_) rfl
  unfold catchStep
  by_cases h : jmHas b.1 a = true <;> simp [h, setWikiDescription, hb]

theorem summariesPass1Step_country (c : Country) (now : Nat) (r1 : BatchResult)
    (b : List (String × Option String) × List (String × String) ×
      List String × CacheState) (a : String) :
    (summariesPass1Step c now r1 b a).2.2.2.country = b.2.2.2.country := by
  rcases b with ⟨res, rm, unres, stx⟩
  unfold summariesPass1Step
  dsimp only
  repeat' split
  all_goals rfl

theorem summariesPass2Step_country (now : Nat)
    (asciiFoldMap retryMap : List (String × String)) (r2 : BatchResult)
    (b : List (String × Option String) × CacheState) (a : String) :
    (summariesPass2Step now asciiFoldMap retryMap r2 b a).2.country =
      b.2.country := by
  rcases b with ⟨res, stx⟩
  unfold summariesPass2Step
  dsimp only
  repeat' split
  all_goals rfl

theorem getSummaries_country (o : WikiOracle) (titles : List String)
    (c : Country) (st : CacheState) (now : Nat) :
    (getSummaries o titles c st now).cache.country = st.country := by
  have hst1 : (summariesCachePhase st now titles).2.country = st.country :=
    getWikiDescriptionsBatch_country st now titles
  unfold getSummaries
  split
  · rfl
  · dsimp only
    split
    · exact hst1
    · split
      · exact (wikiCatchAll_country titles _ _ now).trans hst1
      next r1 heq1 =>
        have hpass1 : ∀ (init : List (String × Option String) ×
            List (String × String) × List String × CacheState) (l : List String),
            init.2.2.2.country = st.country →
            (l.foldl (summariesPass1Step c now r1) init).2.2.2.country
              = st.country := by
          intro init l hinit
          refine foldl_inv
            (fun (acc : List (String × Option String) × List (String × String) ×
              List String × CacheState) => acc.2.2.2.country = st.country)
            _ l init (fun b a hb => ?_) hinit
          exact (summariesPass1Step_country c now r1 b a).trans hb
        split
        · exact hpass1 _ _ hst1
        · split
          · exact (wikiCatchAll_country titles _ _ now).trans (hpass1 _ _ hst1)
          next r2 heq2 =>
            refine foldl_inv
              (fun (acc : List (String × Option String) × CacheState) =>
                acc.2.country = st.country)
              _ _ _ (fun b a hb => ?_) (hpass1 _ _ hst1)
            exact (summariesPass2Step_country now _ _ r2 b a).trans hb

theorem lru_get_snd_subset {α : Type} (cc : LRUCache α) (now : Nat)
    (key : String) :
    ∀ pr ∈ ((cc.get now key).2).entries, pr ∈ cc.entries := by
  unfold LRUCache.get
  rcases hfind : cc.entries.find? (fun p => p.1 == key) with _ | pr0
  · simp [hfind]
  · have hmem : pr0 ∈ cc.entries := List.mem_of_find?_eq_some hfind
    have hkey : pr0.1 = key := by
      have h := List.find?_some hfind
      simpa using h
    simp only [hfind]
    split
    · intro pr hpr
      exact List.mem_of_mem_filter hpr
    · intro pr hpr
      simp only [List.mem_append, List.mem_singleton] at hpr
      rcases hpr with hpr | hpr
      · exact List.mem_of_mem_filter hpr
      · subst hpr
        rw [← hkey]
        exact hmem

theorem lru_set_mem {α : Type} (cc : LRUCache α) (now : Nat) (key : String)
    (v : α) (ttl : Nat) :
    ∀ pr ∈ (cc.set now key v ttl).entries,
      pr ∈ cc.entries ∨ pr = (key, (⟨v, now, ttl⟩ : CacheEntry α)) := by
  unfold LRUCache.set
  intro pr hpr
  have hbase : ∀ q, q ∈ (cc.entries.filter (fun p => p.1 != key) ++
      [(key, (⟨v, now, ttl⟩ : CacheEntry α))]) →
      q ∈ cc.entries ∨ q = (key, (⟨v, now, ttl⟩ : CacheEntry α)) := by
    intro q hq
    simp only [List.mem_append, List.mem_singleton] at hq
    rcases hq with hq | hq
    · exact Or.inl (List.mem_of_mem_filter hq)
    · exact Or.inr hq
  dsimp only at hpr
  split at hpr
  · split at hpr
    next k0 e0 rest hes =>
      split at hpr
      · exact hbase pr hpr
      · refine hbase pr ?_
        rw [hes]
        exact List.mem_cons_of_mem _ hpr
    next hes => exact hbase pr hpr
  · exact hbase pr hpr

theorem accumLoop_polluCalls_ge (env : Env) (c : Country) (needed now : Nat) :
    ∀ (fuel : Nat) (chosen : List CityResult) (seen : List String) (p : Nat)
      (tp : Option Nat) (st : CacheState) (log : RunLog),
      ∀ q ∈ (exLog (accumLoop env c needed now fuel chosen seen p tp st log)).polluCalls,
        q ∈ log.polluCalls ∨ p ≤ q.2 := by
  intro fuel
  induction fuel with
  | zero =>
    intro chosen seen p tp st log q hq
    exact Or.inl hq
  | succ n ih =>
    intro chosen seen p tp st log q hq
    unfold accumLoop at hq
    split at hq
    · split at hq
      · exact Or.inl hq
      · split at hq
        next e hfe =>
          have hcalls := fetchCountryPage_polluCalls env st now c p 50 log
          rw [hfe] at hcalls
          simp only [exLog] at hcalls hq
          rw [hcalls] at hq
          simp only [List.mem_append, List.mem_singleton] at hq
          rcases hq with hq | hq
          · exact Or.inl hq
          · subst hq
            exact Or.inr (Nat.le_refl p)
        next resp st2 log2 hfe =>
          have hcalls := fetchCountryPage_polluCalls env st now c p 50 log
          rw [hfe] at hcalls
          simp only [exLog] at hcalls
          have hstep : ∀ q', q' ∈ log2.polluCalls ∨ p + 1 ≤ q'.2 →
              q' ∈ log.polluCalls ∨ p ≤ q'.2 := by
            intro q' hq'
            rcases hq' with hq' | hq'
            · rw [hcalls] at hq'
              simp only [List.mem_append, List.mem_singleton] at hq'
              rcases hq' with hq' | hq'
              · exact Or.inl hq'
              · subst hq'
                exact Or.inr (Nat.le_refl p)
            · exact Or.inr (Nat.le_of_succ_le hq')
          dsimp only at hq
          split at hq
          · split at hq
            · -- empty batch, final page: cache write then exit
              simp only [exLog] at hq
              rw [hcalls] at hq
              simp only [List.mem_append, List.mem_singleton] at hq
              rcases hq with hq | hq
              · exact Or.inl hq
              · subst hq
                exact Or.inr (Nat.le_refl p)
            · -- empty batch, advance page
              exact hstep q (ih _ _ _ _ _ _ q hq)
          · split at hq
            · -- nonempty batch, final page: exit
              simp only [exLog] at hq
              rw [hcalls] at hq
              simp only [List.mem_append, List.mem_singleton] at hq
              rcases hq with hq | hq
              · exact Or.inl hq
              · subst hq
                exact Or.inr (Nat.le_refl p)
            · -- nonempty batch, advance page
              have := ih _ _ _ _ _ _ q hq
              rcases this with hin | hge
              · exact hstep q (Or.inl hin)
              · exact Or.inr (Nat.le_of_succ_le hge)
    · exact Or.inl hq

/-- The partial country entry committed before the upstream failure in
scenario E9. -/
def entry9 : CountryCacheData :=
  { cities := [{ country := Country.PL, city := "Alpha", pollution := 5,
                 description := some "Alpha is a city in Poland." }],
    lastPage := 1, totalPages := some 3, timestamp := 0, isComplete := false }

/-- C9: unrecoverable upstream errors propagate and partial cache writes are
retained, and every request resumes fetching at lastPageFetched plus one.
First conjunct (general): in any request, every fetchCountryPage invocation
targets a page at or beyond the resume page (lastPage of the live country
entry plus one, or one without an entry) — no earlier page is re-fetched.
Remaining conjuncts evaluate scenario E9 (page one yields a described city,
page two fails): the run surfaces the error, the country entry written after
page one (cities, lastPage one, totalPages three) is retained, and the
retried identical request fetches exactly page two. -/
theorem claim_C9 :
    (∀ (env : Env) (st : CacheState) (now : Nat) (c : Country)
        (limit page fuel : Nat),
      ∀ q ∈ (exLog (getMostPollutedByCountry env st now c limit page fuel)).polluCalls,
        resumePage (getCountryCache st now c).1 ≤ q.2) ∧
    runFailed run9A = true ∧
    (getCountryCache (exState run9A) 1000 Country.PL).1 = some entry9 ∧
    (exLog run9B).polluCalls = [(Country.PL, 2)] := by
  refine ⟨?_, rfl, rfl, rfl⟩
  intro env st now c limit page fuel q hq
  unfold getMostPollutedByCountry at hq
  dsimp only at hq
  split at hq
  next entry heq =>
    rw [heq]
    split at hq
    · simp [exLog, emptyLog] at hq
    · split at hq
      next e heq2 =>
        have h' : q ∈ (exLog (accumLoop env c
            (sliceOffset limit page + sliceWant limit) now fuel entry.cities
            (entry.cities.map (fun r => cityKey r.city r.country))
            (resumePage (some entry)) (startTotalPages (some entry))
            (getCountryCache st now c).2 emptyLog)).polluCalls := by
          rw [heq2]
          exact hq
        rcases accumLoop_polluCalls_ge env c _ now fuel _ _ _ _ _ _ q h' with h | h
        · simp [emptyLog] at h
        · exact h
      next val heq2 =>
        simp only [exLog] at hq
        have h' : q ∈ (exLog (accumLoop env c
            (sliceOffset limit page + sliceWant limit) now fuel entry.cities
            (entry.cities.map (fun r => cityKey r.city r.country))
            (resumePage (some entry)) (startTotalPages (some entry))
            (getCountryCache st now c).2 emptyLog)).polluCalls := by
          rw [heq2]
          simp only [exLog]
          exact hq
        rcases accumLoop_polluCalls_ge env c _ now fuel _ _ _ _ _ _ q h' with h | h
        · simp [emptyLog] at h
        · exact h
  next heq =>
    rw [heq]
    split at hq
    next e heq2 =>
      have h' : q ∈ (exLog (accumLoop env c
          (sliceOffset limit page + sliceWant limit) now fuel [] [] 1 none
          (getCountryCache st now c).2 emptyLog)).polluCalls := by
        rw [heq2]
        exact hq
      rcases accumLoop_polluCalls_ge env c _ now fuel _ _ _ _ _ _ q h' with h | h
      · simp [emptyLog] at h
      · exact h
    next val heq2 =>
      simp only [exLog] at hq
      have h' : q ∈ (exLog (accumLoop env c
          (sliceOffset limit page + sliceWant limit) now fuel [] [] 1 none
          (getCountryCache st now c).2 emptyLog)).polluCalls := by
        rw [heq2]
        simp only [exLog]
        exact hq
      rcases accumLoop_polluCalls_ge env c _ now fuel _ _ _ _ _ _ q h' with h | h
      · simp [emptyLog] at h
      · exact h

/-- C9 witness: the general resume bound instantiated on the retried E9
request, whose first fetched page is page two. -/
theorem claim_C9_witness :
    resumePage (getCountryCache (exState run9A) 1000 Country.PL).1 ≤ 2 ∧
    runFailed run9A = true :=
  ⟨claim_C9.1 env9 (exState run9A) 1000 Country.PL 2 1 10 (Country.PL, 2)
    (by decide),
   claim_C9.2.1⟩

theorem length_insertByPollution (x : CityResult) (l : List CityResult) :
    (insertByPollution x l).length = l.length + 1 := by
  induction l with
  | nil => rfl
  | cons y ys ih =>
    unfold insertByPollution
    split
    · simp
    · simp [ih]

theorem length_sortByPollutionDesc (l : List CityResult) :
    (sortByPollutionDesc l).length = l.length := by
  induction l with
  | nil => rfl
  | cons x xs ih =>
    unfold sortByPollutionDesc at ih ⊢
    simp only [List.foldr]
    rw [length_insertByPollution, ih]
    simp

theorem listSlice_min {α : Type} (l : List α) (o w : Nat) :
    listSlice l o (min (o + w) l.length) = listSlice l o (o + w) := by
  unfold listSlice
  rcases Nat.le_total l.length (o + w) with h | h
  · rw [Nat.min_eq_right h]
    have ha : (l.drop o).length ≤ l.length - o := le_of_eq (List.length_drop o l)
    have hb : (l.drop o).length ≤ o + w - o := by
      rw [List.length_drop]
      omega
    rw [List.take_of_length_le ha, List.take_of_length_le hb]
  · rw [Nat.min_eq_left h]

/-- C10: the slice offset is (page - 1) * limit on the raw requested limit
while the slice width is clamped to at most fifty, so any successful request
with limit over fifty returns a window of the sorted accumulated set that
starts at index (page - 1) * limit and holds at most fifty entities, and the
window of the next page starts limit - 50 entities beyond the end of this
window. -/
theorem claim_C10 (env : Env) (st : CacheState) (now : Nat) (c : Country)
    (limit page fuel : Nat) (r : ServiceResult) (st2 : CacheState)
    (log2 : RunLog)
    (hres : getMostPollutedByCountry env st now c limit page fuel =
      .ok (r, st2, log2))
    (hlim : 50 < limit) (hpage : 1 ≤ page) :
    (∃ base : List CityResult,
      r.cities = listSlice (sortByPollutionDesc base) (sliceOffset limit page)
        (sliceOffset limit page + sliceWant limit)) ∧
    r.cities.length ≤ 50 ∧
    sliceWant limit = 50 ∧
    sliceOffset limit (page + 1) =
      sliceOffset limit page + sliceWant limit + (limit - 50) := by
  have hwant : sliceWant limit = 50 := by
    unfold sliceWant
    omega
  have hbase : ∃ base : List CityResult,
      r.cities = listSlice (sortByPollutionDesc base) (sliceOffset limit page)
        (sliceOffset limit page + sliceWant limit) := by
    unfold getMostPollutedByCountry at hres
    dsimp only at hres
    split at hres
    next entry heq =>
      split at hres
      · injection hres with h1
        injection h1 with h2 h3
        refine ⟨entry.cities, ?_⟩
        rw [← h2]
      · split at hres
        next e heq2 => exact absurd hres (by simp)
        next chosen stx logx heq2 =>
          injection hres with h1
          injection h1 with h2 h3
          refine ⟨chosen, ?_⟩
          rw [← h2]
          show listSlice _ _ (min _ chosen.length) = _
          rw [← length_sortByPollutionDesc chosen]
          exact listSlice_min _ _ _
    next heq =>
      split at hres
      next e heq2 => exact absurd hres (by simp)
      next chosen stx logx heq2 =>
        injection hres with h1
        injection h1 with h2 h3
        refine ⟨chosen, ?_⟩
        rw [← h2]
        show listSlice _ _ (min _ chosen.length) = _
        rw [← length_sortByPollutionDesc chosen]
        exact listSlice_min _ _ _
  refine ⟨hbase, ?_, hwant, ?_⟩
  · obtain ⟨base, hb⟩ := hbase
    rw [hb, hwant]
    unfold listSlice
    refine le_trans (List.length_take_le _ _) ?_
    omega
  · rw [hwant]
    unfold sliceOffset
    obtain ⟨n, rfl⟩ : ∃ n, page = n + 1 := ⟨page - 1, by omega⟩
    simp only [Nat.add_sub_cancel]
    rw [Nat.succ_mul]
    generalize n * limit = k
    omega

/-- An upstream with a single empty page, for instantiating the paged-slice
bound at limit fifty-one. -/
def env10 : Env :=
  { pollu := fun c page =>
      if c = Country.PL ∧ page = 1 then
        .ok { meta := some { page := 1, totalPages := some 1 }
              results := some [] }
      else .error "Pollution fetch failed: 404"
    wiki := wikiAllMissing }

def run10 : Except (String × CacheState × RunLog) (ServiceResult × CacheState × RunLog) :=
  getMostPollutedByCountry env10 initialCacheState 0 Country.PL 51 1 5

/-- C10 witness: the slice bound instantiated on a concrete successful
request with limit fifty-one. -/
theorem claim_C10_witness :
    (∃ base : List CityResult,
      (⟨[], false⟩ : ServiceResult).cities =
        listSlice (sortByPollutionDesc base) (sliceOffset 51 1)
          (sliceOffset 51 1 + sliceWant 51)) ∧
    (⟨[], false⟩ : ServiceResult).cities.length ≤ 50 ∧
    sliceWant 51 = 50 ∧
    sliceOffset 51 2 = sliceOffset 51 1 + sliceWant 51 + (51 - 50) :=
  claim_C10 env10 initialCacheState 0 Country.PL 51 1 5 ⟨[], false⟩
    (exState run10) (exLog run10) rfl (by decide) (by decide)

/-- All entries stored for a country in the progressive cache are marked
complete. -/
def countryEntriesComplete (st : CacheState) (c : Country) : Prop :=
  ∀ pr ∈ st.country.entries, pr.1 = c.code → pr.2.data.isComplete = true

theorem countryEntriesComplete_of_eq {st st2 : CacheState} {c : Country}
    (h : st2.country = st.country) (hInv : countryEntriesComplete st c) :
    countryEntriesComplete st2 c := by
  intro pr hpr hcode
  rw [h] at hpr
  exact hInv pr hpr hcode

theorem countryEntriesComplete_getCountryCache (st : CacheState) (now : Nat)
    (c c2 : Country) (hInv : countryEntriesComplete st c) :
    countryEntriesComplete (getCountryCache st now c2).2 c := by
  intro pr hpr hcode
  unfold getCountryCache at hpr
  exact hInv pr (lru_get_snd_subset st.country now c2.code pr hpr) hcode

theorem countryEntriesComplete_setCountryCache (st : CacheState) (now : Nat)
    (c : Country) (d : CountryCacheData) (hd : d.isComplete = true)
    (hInv : countryEntriesComplete st c) :
    countryEntriesComplete (setCountryCache st now c d) c := by
  intro pr hpr hcode
  unfold setCountryCache at hpr
  rcases lru_set_mem st.country now c.code d COUNTRY_TTL pr hpr with h | h
  · exact hInv pr h hcode
  · rw [h]
    exact hd

theorem accumLoop_final_page (env : Env) (c : Country) (needed now : Nat)
    (fuel : Nat) (chosen : List CityResult) (seen : List String)
    (p T : Nat) (st : CacheState) (log : RunLog)
    (hT1 : 1 ≤ T) (hp : T ≤ p)
    (hInv : countryEntriesComplete st c) :
    (∀ q ∈ (exLog (accumLoop env c needed now fuel chosen seen p (some T) st log)).polluCalls,
        q ∈ log.polluCalls ∨ (q.2 = p ∧ q.2 ≤ T)) ∧
    countryEntriesComplete
      (exState (accumLoop env c needed now fuel chosen seen p (some T) st log)) c := by
  match fuel with
  | 0 => exact ⟨fun q hq => Or.inl hq, hInv⟩
  | fuel + 1 =>
    unfold accumLoop
    by_cases hc1 : chosen.length < needed
    · rw [if_pos hc1]
      dsimp only
      by_cases hc2 : T < p
      · have hcond : (decide (T ≠ 0 ∧ p > T)) = true := by
          simp
          omega
        rw [hcond]
        simp only [if_true]
        exact ⟨fun q hq => Or.inl hq, hInv⟩
      · have hpT : p = T := by omega
        have hcond : (decide (T ≠ 0 ∧ p > T)) = false := by
          simp
          omega
        rw [hcond]
        simp only [Bool.false_eq_true, if_false]
        have hfc := fetchCountryPage_polluCalls env st now c p 50 log
        have hfs := fetchCountryPage_country env st now c p 50 log
        rcases hf : fetchCountryPage env st now c p 50 log with e | v
        · rw [hf] at hfc hfs
          simp only [exLog, exState] at hfc hfs
          refine ⟨fun q hq => ?_, ?_⟩
          · simp only [exLog] at hq
            rw [hfc] at hq
            simp only [List.mem_append, List.mem_singleton] at hq
            rcases hq with hq | hq
            · exact Or.inl hq
            · subst hq
              exact Or.inr ⟨rfl, le_of_eq hpT⟩
          · simp only [exState]
            exact countryEntriesComplete_of_eq hfs hInv
        · rcases v with ⟨resp, st2, log2⟩
          rw [hf] at hfc hfs
          simp only [exLog, exState] at hfc hfs
          have hInv2 : countryEntriesComplete st2 c :=
            countryEntriesComplete_of_eq hfs hInv
          dsimp only
          have hple : p ≥ (some T : Option Nat).getD 1 := hp
          by_cases hbe : (buildBatch c (resp.results.getD []) seen).1.isEmpty = true
          · rw [if_pos hbe, if_pos hple]
            refine ⟨fun q hq => ?_, ?_⟩
            · simp only [exLog] at hq
              rw [hfc] at hq
              simp only [List.mem_append, List.mem_singleton] at hq
              rcases hq with hq | hq
              · exact Or.inl hq
              · subst hq
                exact Or.inr ⟨rfl, le_of_eq hpT⟩
            · simp only [exState]
              exact countryEntriesComplete_setCountryCache st2 now c _ rfl hInv2
          · rw [if_neg hbe, if_pos hple]
            refine ⟨fun q hq => ?_, ?_⟩
            · simp only [exLog] at hq
              rw [hfc] at hq
              simp only [List.mem_append, List.mem_singleton] at hq
              rcases hq with hq | hq
              · exact Or.inl hq
              · subst hq
                exact Or.inr ⟨rfl, le_of_eq hpT⟩
            · simp only [exState]
              refine countryEntriesComplete_setCountryCache _ now c _ ?_ ?_
              · simp only [decide_eq_true_eq]
                exact hple
              · exact countryEntriesComplete_of_eq
                  (getSummaries_country env.wiki _ c st2 now) hInv2
    · rw [if_neg hc1]
      exact ⟨fun q hq => Or.inl hq, hInv⟩

/-- C3 (amended): for a live country entry marked complete — any entry the
code writes as complete satisfies totalPages at least one and lastPage plus
one at least totalPages — a request (a) invokes fetchCountryPage only for
page lastPage plus one, never beyond totalPages and never on earlier pages,
re-fetching at most the final page (which goes to the real upstream only
when the page cache has expired), and (b) leaves every stored entry for the
country still marked complete: the flag never reverts to false while the
entry lives. -/
theorem claim_C3 (env : Env) (st : CacheState) (now : Nat) (c : Country)
    (limit page fuel : Nat) (entry : CountryCacheData) (T : Nat)
    (hentry : (getCountryCache st now c).1 = some entry)
    (hT : entry.totalPages = some T)
    (hT1 : 1 ≤ T)
    (hTl : T ≤ entry.lastPage + 1)
    (hInv : countryEntriesComplete st c) :
    (∀ q ∈ (exLog (getMostPollutedByCountry env st now c limit page fuel)).polluCalls,
        q.2 = entry.lastPage + 1 ∧ q.2 ≤ T) ∧
    countryEntriesComplete
      (exState (getMostPollutedByCountry env st now c limit page fuel)) c := by
  unfold getMostPollutedByCountry
  dsimp only
  rw [hentry]
  dsimp only
  have hstp : startTotalPages (some entry) = some T := by
    unfold startTotalPages
    dsimp only
    rw [hT]
    dsimp only
    rw [if_neg (by omega)]
  have hInv2 : countryEntriesComplete (getCountryCache st now c).2 c :=
    countryEntriesComplete_getCountryCache st now c c hInv
  by_cases hhit : entry.cities.length ≥ sliceOffset limit page + sliceWant limit
  · rw [if_pos hhit]
    refine ⟨fun q hq => ?_, ?_⟩
    · simp [exLog, emptyLog] at hq
    · exact hInv2
  · rw [if_neg hhit]
    rw [hstp]
    have hrp : resumePage (some entry) = entry.lastPage + 1 := rfl
    obtain ⟨hcalls, hstate⟩ := accumLoop_final_page env c
      (sliceOffset limit page + sliceWant limit) now fuel entry.cities
      (entry.cities.map (fun r => cityKey r.city r.country))
      (resumePage (some entry)) T (getCountryCache st now c).2 emptyLog hT1
      (by rw [hrp]; exact hTl) hInv2
    rcases hacc : accumLoop env c (sliceOffset limit page + sliceWant limit) now
        fuel entry.cities (entry.cities.map (fun r => cityKey r.city r.country))
        (resumePage (some entry)) (some T) (getCountryCache st now c).2 emptyLog
      with e | v
    · rw [hacc] at hcalls hstate ⊢
      dsimp only
      refine ⟨fun q hq => ?_, hstate⟩
      rcases hcalls q hq with h | h
      · simp [emptyLog] at h
      · exact ⟨h.1, h.2⟩
    · rcases v with ⟨chosen, st3, log3⟩
      rw [hacc] at hcalls hstate ⊢
      dsimp only
      refine ⟨fun q hq => ?_, hstate⟩
      simp only [exLog] at hq hcalls
      rcases hcalls q hq with h | h
      · simp [emptyLog] at h
      · exact ⟨h.1, h.2⟩

/-- The complete country entry left by the E3 first run (completion on an
empty final page, so lastPage is totalPages minus one). -/
def entry3 : CountryCacheData :=
  { cities := [], lastPage := 1, totalPages := some 2, timestamp := 0,
    isComplete := true }

/-- C3 witness: the amended bound instantiated on the E3 state, where the
second request re-fetches exactly page two. -/
theorem claim_C3_witness :
    (∀ q ∈ (exLog (getMostPollutedByCountry env3 (exState run3A) 1000
        Country.PL 1 1 10)).polluCalls,
      q.2 = entry3.lastPage + 1 ∧ q.2 ≤ 2) ∧
    countryEntriesComplete
      (exState (getMostPollutedByCountry env3 (exState run3A) 1000
        Country.PL 1 1 10)) Country.PL :=
  claim_C3 env3 (exState run3A) 1000 Country.PL 1 1 10 entry3 2
    (by decide) rfl (by decide) (by decide)
    (by unfold countryEntriesComplete; decide)

/-! ## JavaScript-Map lemmas -/

/-- Invariant preservation through a left fold, with membership of the
consumed element available to the step. -/
theorem foldl_inv_mem {α β : Type} (P : β → Prop) (f : β → α → β) (l : List α)
    (b : β) (hstep : ∀ b a, a ∈ l → P b → P (f b a)) (hinit : P b) :
    P (l.foldl f b) := by
  induction l generalizing b with
  | nil => exact hinit
  | cons a t ih =>
    exact ih (f b a)
      (fun b1 a1 ha1 hb1 => hstep b1 a1 (List.mem_cons_of_mem _ ha1) hb1)
      (hstep b a (List.mem_cons_self _ _) hinit)

theorem jmHas_iff_mem_keys {α : Type} (m : List (String × α)) (k : String) :
    jmHas m k = true ↔ k ∈ m.map Prod.fst := by
  unfold jmHas
  simp [List.any_eq_true, beq_iff_eq, List.mem_map]

theorem jmSet_keys {α : Type} (m : List (String × α)) (k : String) (v : α) :
    (jmSet m k v).map Prod.fst =
      if jmHas m k then m.map Prod.fst else m.map Prod.fst ++ [k] := by
  by_cases h : jmHas m k = true
  · rw [if_pos h]
    unfold jmHas at h
    unfold jmSet
    rw [if_pos h, List.map_map]
    refine List.map_congr_left (fun p hp => ?_)
    by_cases hpk : p.1 = k
    · simp [hpk]
    · simp [hpk]
  · rw [if_neg h]
    unfold jmHas at h
    unfold jmSet
    rw [if_neg h]
    simp

theorem jmHas_jmSet_self {α : Type} (m : List (String × α)) (k : String)
    (v : α) : jmHas (jmSet m k v) k = true := by
  rw [jmHas_iff_mem_keys, jmSet_keys]
  by_cases h : jmHas m k = true
  · rw [if_pos h]
    exact (jmHas_iff_mem_keys m k).mp h
  · rw [if_neg h]
    simp

theorem jmHas_jmSet_mono {α : Type} (m : List (String × α)) (k t : String)
    (v : α) (h : jmHas m t = true) : jmHas (jmSet m k v) t = true := by
  rw [jmHas_iff_mem_keys, jmSet_keys]
  have ht := (jmHas_iff_mem_keys m t).mp h
  by_cases hk : jmHas m k = true
  · rw [if_pos hk]
    exact ht
  · rw [if_neg hk]
    exact List.mem_append_left _ ht

theorem jmSet_keys_nodup {α : Type} (m : List (String × α)) (k : String)
    (v : α) (h : (m.map Prod.fst).Nodup) :
    ((jmSet m k v).map Prod.fst).Nodup := by
  rw [jmSet_keys]
  by_cases hk : jmHas m k = true
  · rw [if_pos hk]
    exact h
  · rw [if_neg hk]
    rw [List.nodup_append]
    refine ⟨h, List.nodup_singleton k, ?_⟩
    intro a ha hb
    rw [List.mem_singleton] at hb
    subst hb
    exact hk ((jmHas_iff_mem_keys m a).mpr ha)

theorem jmSet_mem {α : Type} (m : List (String × α)) (k : String) (v : α) :
    ∀ pr ∈ jmSet m k v, pr ∈ m ∨ pr = (k, v) := by
  unfold jmSet
  split
  · intro pr hpr
    rw [List.mem_map] at hpr
    rcases hpr with ⟨p, hp, he⟩
    by_cases hpk : (p.1 == k) = true
    · right
      rw [← he, if_pos hpk]
    · left
      rw [← he, if_neg hpk]
      exact hp
  · intro pr hpr
    rw [List.mem_append] at hpr
    rcases hpr with hpr | hpr
    · exact Or.inl hpr
    · exact Or.inr (List.mem_singleton.mp hpr)

theorem jmSet_of_not_has {α : Type} (m : List (String × α)) (k : String)
    (v : α) (h : jmHas m k = false) : jmSet m k v = m ++ [(k, v)] := by
  unfold jmHas at h
  unfold jmSet
  rw [h]
  simp

theorem jmGet_mem {α : Type} (m : List (String × α)) (k : String) (v : α)
    (h : jmGet m k = some v) : (k, v) ∈ m := by
  unfold jmGet at h
  rcases hf : m.find? (fun p => p.1 == k) with _ | pr
  · rw [hf] at h
    cases h
  · rw [hf] at h
    have hk : pr.1 = k := by
      have h2 := List.find?_some hf
      simpa [beq_iff_eq] using h2
    have hm := List.mem_of_find?_eq_some hf
    have hv : pr.2 = v := by
      simpa using h
    have he : pr = (k, v) := Prod.ext hk hv
    rw [← he]
    exact hm

theorem beq_false_of_ne {α : Type} [BEq α] [LawfulBEq α] {a b : α}
    (h : a ≠ b) : (a == b) = false :=
  Bool.eq_false_iff.mpr (fun hb => h (beq_iff_eq.mp hb))

theorem jmGet_cons_pos {α : Type} (x : String × α) (l : List (String × α))
    (k : String) (h : (x.1 == k) = true) :
    jmGet (x :: l) k = some x.2 := by
  unfold jmGet
  simp [List.find?_cons, h]

theorem jmGet_cons_neg {α : Type} (x : String × α) (l : List (String × α))
    (k : String) (h : (x.1 == k) = false) :
    jmGet (x :: l) k = jmGet l k := by
  unfold jmGet
  simp [List.find?_cons, h]

theorem jmGet_of_mem_nodup {α : Type} (l : List (String × α)) (k : String)
    (v : α) (hmem : (k, v) ∈ l) (hnd : (l.map Prod.fst).Nodup) :
    jmGet l k = some v := by
  induction l with
  | nil => cases hmem
  | cons p rest ih =>
    have hnd2 : (rest.map Prod.fst).Nodup :=
      (List.nodup_cons.mp (by simpa using hnd)).2
    rcases List.mem_cons.mp hmem with he | hm
    · rw [← he, jmGet_cons_pos (k, v) rest k (by simp)]
    · have hnotin : p.1 ∉ rest.map Prod.fst :=
        (List.nodup_cons.mp (by simpa using hnd)).1
      have hk : (p.1 == k) = false := by
        refine beq_false_of_ne (fun he2 => ?_)
        exact hnotin (he2 ▸ List.mem_map.mpr ⟨(k, v), hm, rfl⟩)
      rw [jmGet_cons_neg p rest k hk]
      exact ih hm hnd2

theorem jmGet_append_single_ne {α : Type} (m : List (String × α))
    (k t : String) (v : α) (h : t ≠ k) :
    jmGet (m ++ [(k, v)]) t = jmGet m t := by
  induction m with
  | nil =>
    rw [List.nil_append, jmGet_cons_neg (k, v) [] t (beq_false_of_ne (Ne.symm h))]
  | cons p rest ih =>
    rw [List.cons_append]
    by_cases hpt : (p.1 == t) = true
    · rw [jmGet_cons_pos p _ t hpt, jmGet_cons_pos p rest t hpt]
    · have hf : (p.1 == t) = false := Bool.eq_false_iff.mpr hpt
      rw [jmGet_cons_neg p _ t hf, jmGet_cons_neg p rest t hf]
      exact ih

theorem jmGet_mapUpdate_ne {α : Type} (m : List (String × α)) (k t : String)
    (v : α) (h : t ≠ k) :
    jmGet (m.map (fun p => if p.1 == k then (k, v) else p)) t = jmGet m t := by
  induction m with
  | nil => rfl
  | cons p rest ih =>
    rw [List.map_cons]
    by_cases hpk : (p.1 == k) = true
    · rw [if_pos hpk]
      have h1 : (((k, v) : String × α).1 == t) = false :=
        beq_false_of_ne (Ne.symm h)
      have hpkeq : p.1 = k := beq_iff_eq.mp hpk
      have h2 : (p.1 == t) = false := by
        rw [hpkeq]
        exact beq_false_of_ne (Ne.symm h)
      rw [jmGet_cons_neg (k, v) _ t h1, jmGet_cons_neg p rest t h2]
      exact ih
    · rw [if_neg hpk]
      by_cases hpt : (p.1 == t) = true
      · rw [jmGet_cons_pos p _ t hpt, jmGet_cons_pos p rest t hpt]
      · have hf : (p.1 == t) = false := Bool.eq_false_iff.mpr hpt
        rw [jmGet_cons_neg p _ t hf, jmGet_cons_neg p rest t hf]
        exact ih

theorem jmGet_jmSet_ne {α : Type} (m : List (String × α)) (k t : String)
    (v : α) (h : t ≠ k) : jmGet (jmSet m k v) t = jmGet m t := by
  unfold jmSet
  split
  · exact jmGet_mapUpdate_ne m k t v h
  · exact jmGet_append_single_ne m k t v h

theorem jmGet_mapUpdate_self {α : Type} (m : List (String × α)) (k : String)
    (v : α) :
    jmHas m k = true →
    jmGet (m.map (fun p => if p.1 == k then (k, v) else p)) k = some v := by
  induction m with
  | nil => intro h; cases h
  | cons p rest ih =>
    intro h
    rw [List.map_cons]
    by_cases hpk : (p.1 == k) = true
    · rw [if_pos hpk, jmGet_cons_pos (k, v) _ k (by simp)]
    · have hpk2 : (p.1 == k) = false := Bool.eq_false_iff.mpr hpk
      rw [if_neg hpk, jmGet_cons_neg p _ k hpk2]
      have h2 : jmHas rest k = true := by
        unfold jmHas at h ⊢
        rw [List.any_cons, hpk2] at h
        simpa using h
      exact ih h2

theorem jmGet_append_single_self {α : Type} (m : List (String × α))
    (k : String) (v : α) :
    jmHas m k = false → jmGet (m ++ [(k, v)]) k = some v := by
  induction m with
  | nil =>
    intro h
    rw [List.nil_append, jmGet_cons_pos (k, v) [] k (by simp)]
  | cons p rest ih =>
    intro h
    unfold jmHas at h
    rw [List.any_cons] at h
    have hp : (p.1 == k) = false := (Bool.or_eq_false_iff.mp h).1
    have h2 : jmHas rest k = false := (Bool.or_eq_false_iff.mp h).2
    rw [List.cons_append, jmGet_cons_neg p _ k hp]
    exact ih h2

theorem jmGet_jmSet_self {α : Type} (m : List (String × α)) (k : String)
    (v : α) : jmGet (jmSet m k v) k = some v := by
  unfold jmSet
  by_cases h : (m.any fun p => p.1 == k) = true
  · rw [if_pos h]
    exact jmGet_mapUpdate_self m k v h
  · rw [if_neg h]
    exact jmGet_append_single_self m k v (Bool.eq_false_iff.mpr h)

/-! ## Pass-1 and pass-2 characterizations -/

theorem summariesPass1Step_eq (c : Country) (now : Nat) (r1 : BatchResult)
    (res : List (String × Option String)) (rm : List (String × String))
    (unres : List String) (stx : CacheState) (input : String) :
    summariesPass1Step c now r1 (res, rm, unres, stx) input =
      ((match pass1Settled r1 input with
        | some d => jmSet res input d
        | none => res),
       (match pass1Queued c r1 input with
        | some q => jmSet rm q input
        | none => rm),
       unres ++ (pass1Queued c r1 input).toList,
       (match pass1Settled r1 input with
        | some d => setWikiDescription stx now input d WIKIPEDIA_TTL
        | none => stx)) := by
  unfold summariesPass1Step pass1Settled pass1Queued
  cases hpg : getPage input r1 with
  | none => rfl
  | some page =>
    dsimp only
    split
    next h1 => rfl
    next h1 =>
      split
      next h2 => simp
      next h2 =>
        split
        next h3 => rfl
        next h3 => simp

theorem pass1Queued_none_settled (c : Country) (r1 : BatchResult) (i : String) :
    pass1Queued c r1 i = none → ∃ d, pass1Settled r1 i = some d := by
  unfold pass1Queued pass1Settled
  cases hpg : getPage i r1 with
  | none => intro h; cases h
  | some page =>
    dsimp only
    intro h
    split at h
    next h1 => cases h
    next h1 =>
      rw [if_neg h1]
      split at h
      next h2 =>
        rw [if_pos h2]
        exact ⟨_, rfl⟩
      next h2 =>
        rw [if_neg h2]
        split at h
        next h3 => cases h
        next h3 =>
          rw [if_neg h3]
          exact ⟨none, rfl⟩

theorem optTrimToNull_ne_empty (e : Option String) :
    optTrimToNull e ≠ some "" := by
  unfold optTrimToNull
  dsimp only
  split
  next h => exact fun h2 => Option.noConfusion h2
  next h => exact fun h2 => h (Option.some.inj h2)

theorem pass1Settled_ne_empty (r1 : BatchResult) (i : String)
    (d : Option String) :
    pass1Settled r1 i = some d → d ≠ some "" := by
  unfold pass1Settled
  cases hpg : getPage i r1 with
  | none => intro h; cases h
  | some page =>
    dsimp only
    intro h
    split at h
    next h1 => cases h
    next h1 =>
      split at h
      next h2 =>
        rw [← Option.some.inj h]
        exact optTrimToNull_ne_empty page.extract
      next h2 =>
        split at h
        next h3 => cases h
        next h3 =>
          rw [← Option.some.inj h]
          simp

theorem pass1_unresolved (c : Country) (now : Nat) (r1 : BatchResult)
    (l : List String) :
    ∀ (acc : List (String × Option String) × List (String × String) ×
      List String × CacheState),
      (l.foldl (summariesPass1Step c now r1) acc).2.2.1 =
        acc.2.2.1 ++ l.filterMap (pass1Queued c r1) := by
  induction l with
  | nil =>
    intro acc
    simp
  | cons i rest ih =>
    intro acc
    rcases acc with ⟨res, rm, unres, stx⟩
    rw [List.foldl_cons, summariesPass1Step_eq, ih, List.filterMap_cons]
    dsimp only
    cases hq : pass1Queued c r1 i with
    | none => simp
    | some q => simp

theorem pass1_retryPairs_keys (c : Country) (r1 : BatchResult)
    (l : List String) :
    (l.filterMap (fun i => (pass1Queued c r1 i).map (fun q => (q, i)))).map
      Prod.fst = l.filterMap (pass1Queued c r1) := by
  induction l with
  | nil => rfl
  | cons i rest ih =>
    rw [List.filterMap_cons, List.filterMap_cons]
    cases hq : pass1Queued c r1 i with
    | none => simpa using ih
    | some q => simp [ih]

theorem pass1_retryMap (c : Country) (now : Nat) (r1 : BatchResult)
    (l : List String) :
    ∀ (res : List (String × Option String)) (rm : List (String × String))
      (unres : List String) (stx : CacheState),
      (rm.map Prod.fst ++ l.filterMap (pass1Queued c r1)).Nodup →
      (l.foldl (summariesPass1Step c now r1) (res, rm, unres, stx)).2.1 =
        rm ++ l.filterMap
          (fun i => (pass1Queued c r1 i).map (fun q => (q, i))) := by
  induction l with
  | nil =>
    intro res rm unres stx h
    simp
  | cons i rest ih =>
    intro res rm unres stx h
    rw [List.filterMap_cons] at h
    rw [List.foldl_cons, summariesPass1Step_eq, List.filterMap_cons]
    cases hq : pass1Queued c r1 i with
    | none =>
      rw [hq] at h
      rw [ih _ rm _ _ h]
      rfl
    | some q =>
      rw [hq] at h
      dsimp only at h
      dsimp only
      have hqnotin : q ∉ rm.map Prod.fst := by
        rw [List.nodup_append] at h
        exact fun hin => h.2.2 hin (List.mem_cons_self _ _)
      have hnothas : jmHas rm q = false := by
        rcases hb : jmHas rm q with _ | _
        · rfl
        · exact absurd ((jmHas_iff_mem_keys rm q).mp hb) hqnotin
      have hset : jmSet rm q i = rm ++ [(q, i)] := jmSet_of_not_has rm q i hnothas
      have h2 : ((rm ++ [(q, i)]).map Prod.fst ++
          rest.filterMap (pass1Queued c r1)).Nodup := by
        rw [List.map_append, List.append_assoc]
        simpa using h
      rw [hset, ih _ (rm ++ [(q, i)]) _ _ h2, List.append_assoc]
      simp

theorem pass1_result_mono (c : Country) (now : Nat) (r1 : BatchResult)
    (l : List String) (t : String)
    (acc : List (String × Option String) × List (String × String) ×
      List String × CacheState) (h : jmHas acc.1 t = true) :
    jmHas (l.foldl (summariesPass1Step c now r1) acc).1 t = true := by
  refine foldl_inv (fun b => jmHas b.1 t = true) _ l acc (fun b a hb => ?_) h
  rcases b with ⟨res, rm, unres, stx⟩
  rw [summariesPass1Step_eq]
  dsimp only
  cases hs : pass1Settled r1 a with
  | none => exact hb
  | some d => exact jmHas_jmSet_mono res a t d hb

theorem pass1_result_settled (c : Country) (now : Nat) (r1 : BatchResult)
    (l : List String) :
    ∀ (acc : List (String × Option String) × List (String × String) ×
      List String × CacheState),
      ∀ i ∈ l, pass1Queued c r1 i = none →
      jmHas (l.foldl (summariesPass1Step c now r1) acc).1 i = true := by
  induction l with
  | nil => intro acc i hi; cases hi
  | cons a rest ih =>
    intro acc i hi hq
    rcases List.mem_cons.mp hi with he | hm
    · subst he
      rw [List.foldl_cons]
      refine pass1_result_mono c now r1 rest i _ ?_
      rcases acc with ⟨res, rm, unres, stx⟩
      rw [summariesPass1Step_eq]
      dsimp only
      rcases pass1Queued_none_settled c r1 i hq with ⟨d, hd⟩
      rw [hd]
      exact jmHas_jmSet_self res i d
    · rw [List.foldl_cons]
      exact ih _ i hm hq

theorem pass1_result_entries (c : Country) (now : Nat) (r1 : BatchResult)
    (l : List String)
    (acc : List (String × Option String) × List (String × String) ×
      List String × CacheState) :
    ∀ pr ∈ (l.foldl (summariesPass1Step c now r1) acc).1,
      pr ∈ acc.1 ∨ (pr.1 ∈ l ∧ pr.2 ≠ some "") := by
  refine foldl_inv_mem
    (fun b => ∀ pr ∈ b.1, pr ∈ acc.1 ∨ (pr.1 ∈ l ∧ pr.2 ≠ some "")) _ l acc
    (fun b a ha hb => ?_) (fun pr hpr => Or.inl hpr)
  rcases b with ⟨res, rm, unres, stx⟩
  rw [summariesPass1Step_eq]
  dsimp only
  intro pr hpr
  cases hs : pass1Settled r1 a with
  | none =>
    rw [hs] at hpr
    exact hb pr hpr
  | some d =>
    rw [hs] at hpr
    rcases jmSet_mem res a d pr hpr with h | h
    · exact hb pr h
    · refine Or.inr ⟨?_, ?_⟩
      · rw [h]
        exact ha
      · rw [h]
        exact pass1Settled_ne_empty r1 a d hs

theorem pass1_result_keys_nodup (c : Country) (now : Nat) (r1 : BatchResult)
    (l : List String)
    (acc : List (String × Option String) × List (String × String) ×
      List String × CacheState) (h : (acc.1.map Prod.fst).Nodup) :
    (((l.foldl (summariesPass1Step c now r1) acc).1).map Prod.fst).Nodup := by
  refine foldl_inv (fun b => (b.1.map Prod.fst).Nodup) _ l acc
    (fun b a hb => ?_) h
  rcases b with ⟨res, rm, unres, stx⟩
  rw [summariesPass1Step_eq]
  dsimp only
  cases hs : pass1Settled r1 a with
  | none => exact hb
  | some d => exact jmSet_keys_nodup res a d hb

theorem summariesPass2Step_eq (now : Nat) (afm rm : List (String × String))
    (r2 : BatchResult) (res : List (String × Option String)) (stx : CacheState)
    (ft : String) :
    summariesPass2Step now afm rm r2 (res, stx) ft =
      (jmSet res (p2orig afm rm ft) (pass2Val r2 ft),
       setWikiDescription stx now (p2orig afm rm ft) (pass2Val r2 ft)
         WIKIPEDIA_TTL) := by
  unfold summariesPass2Step p2orig pass2Val
  cases hpg : getPage ft r2 with
  | none => rfl
  | some page => rfl

theorem pass2Val_ne_empty (r2 : BatchResult) (ft : String) :
    pass2Val r2 ft ≠ some "" := by
  unfold pass2Val
  cases hpg : getPage ft r2 with
  | none => simp
  | some page =>
    dsimp only
    split
    · exact optTrimToNull_ne_empty page.extract
    · simp

theorem pass2_result_mono (now : Nat) (afm rm : List (String × String))
    (r2 : BatchResult) (l : List String) (t : String)
    (acc : List (String × Option String) × CacheState)
    (h : jmHas acc.1 t = true) :
    jmHas (l.foldl (summariesPass2Step now afm rm r2) acc).1 t = true := by
  refine foldl_inv (fun b => jmHas b.1 t = true) _ l acc (fun b a hb => ?_) h
  rcases b with ⟨res, stx⟩
  rw [summariesPass2Step_eq]
  exact jmHas_jmSet_mono res (p2orig afm rm a) t (pass2Val r2 a) hb

theorem pass2_result_covers (now : Nat) (afm rm : List (String × String))
    (r2 : BatchResult) (l : List String) :
    ∀ acc : List (String × Option String) × CacheState, ∀ ft ∈ l,
      jmHas (l.foldl (summariesPass2Step now afm rm r2) acc).1
        (p2orig afm rm ft) = true := by
  induction l with
  | nil => intro acc ft hft; cases hft
  | cons a rest ih =>
    intro acc ft hft
    rcases List.mem_cons.mp hft with he | hm
    · subst he
      rw [List.foldl_cons]
      refine pass2_result_mono now afm rm r2 rest _ _ ?_
      rcases acc with ⟨res, stx⟩
      rw [summariesPass2Step_eq]
      exact jmHas_jmSet_self res (p2orig afm rm ft) (pass2Val r2 ft)
    · rw [List.foldl_cons]
      exact ih _ ft hm

theorem pass2_get_skip (now : Nat) (afm rm : List (String × String))
    (r2 : BatchResult) (l : List String) (t : String) :
    ∀ acc : List (String × Option String) × CacheState,
      (∀ ft ∈ l, p2orig afm rm ft ≠ t) →
      jmGet (l.foldl (summariesPass2Step now afm rm r2) acc).1 t =
        jmGet acc.1 t := by
  induction l with
  | nil => intro acc h; rfl
  | cons a rest ih =>
    intro acc h
    rcases acc with ⟨res, stx⟩
    rw [List.foldl_cons, summariesPass2Step_eq,
      ih _ (fun ft hft => h ft (List.mem_cons_of_mem _ hft))]
    exact jmGet_jmSet_ne res (p2orig afm rm a) t (pass2Val r2 a)
      (fun he => h a (List.mem_cons_self _ _) he.symm)

theorem pass2_get_eq (now : Nat) (afm rm : List (String × String))
    (r2 : BatchResult) (l : List String) (t ft : String) :
    ∀ acc : List (String × Option String) × CacheState,
      ft ∈ l → p2orig afm rm ft = t →
      (∀ ft2 ∈ l, p2orig afm rm ft2 = t → ft2 = ft) → l.Nodup →
      jmGet (l.foldl (summariesPass2Step now afm rm r2) acc).1 t =
        some (pass2Val r2 ft) := by
  induction l with
  | nil => intro acc hft; cases hft
  | cons a rest ih =>
    intro acc hft horig huniq hnd
    rcases List.mem_cons.mp hft with he | hm
    · subst he
      rw [List.foldl_cons]
      rcases acc with ⟨res, stx⟩
      rw [summariesPass2Step_eq]
      have hskip : ∀ ft2 ∈ rest, p2orig afm rm ft2 ≠ t := by
        intro ft2 hft2 he2
        have heq := huniq ft2 (List.mem_cons_of_mem _ hft2) he2
        rw [heq] at hft2
        exact (List.nodup_cons.mp hnd).1 hft2
      rw [pass2_get_skip now afm rm r2 rest t _ hskip, horig]
      exact jmGet_jmSet_self res t (pass2Val r2 ft)
    · rw [List.foldl_cons]
      exact ih _ hm horig
        (fun ft2 hft2 he2 => huniq ft2 (List.mem_cons_of_mem _ hft2) he2)
        (List.nodup_cons.mp hnd).2

theorem pass2_result_entries (now : Nat) (afm rm : List (String × String))
    (r2 : BatchResult) (l : List String)
    (acc : List (String × Option String) × CacheState) :
    ∀ pr ∈ (l.foldl (summariesPass2Step now afm rm r2) acc).1,
      pr ∈ acc.1 ∨ ∃ ft, ft ∈ l ∧ pr = (p2orig afm rm ft, pass2Val r2 ft) := by
  refine foldl_inv_mem
    (fun b => ∀ pr ∈ b.1, pr ∈ acc.1 ∨
      ∃ ft, ft ∈ l ∧ pr = (p2orig afm rm ft, pass2Val r2 ft)) _ l acc
    (fun b a ha hb => ?_) (fun pr hpr => Or.inl hpr)
  rcases b with ⟨res, stx⟩
  rw [summariesPass2Step_eq]
  intro pr hpr
  rcases jmSet_mem res _ _ pr hpr with h | h
  · exact hb pr h
  · exact Or.inr ⟨a, ha, h⟩

theorem pass2_result_keys_nodup (now : Nat) (afm rm : List (String × String))
    (r2 : BatchResult) (l : List String)
    (acc : List (String × Option String) × CacheState)
    (h : (acc.1.map Prod.fst).Nodup) :
    ((l.foldl (summariesPass2Step now afm rm r2) acc).1.map Prod.fst).Nodup := by
  refine foldl_inv (fun b => (b.1.map Prod.fst).Nodup) _ l acc
    (fun b a hb => ?_) h
  rcases b with ⟨res, stx⟩
  rw [summariesPass2Step_eq]
  exact jmSet_keys_nodup res _ _ hb

theorem buildFoldMap_aux (u : List String) :
    ∀ m : List (String × String),
      (m.map Prod.fst ++ u.map (fun q => asciiFold q false)).Nodup →
      u.foldl (fun m q => jmSet m (asciiFold q false) q) m =
        m ++ u.map (fun q => (asciiFold q false, q)) := by
  induction u with
  | nil =>
    intro m h
    simp
  | cons q rest ih =>
    intro m h
    rw [List.map_cons] at h
    rw [List.foldl_cons]
    have hnotin : asciiFold q false ∉ m.map Prod.fst := by
      rw [List.nodup_append] at h
      exact fun hin => h.2.2 hin (List.mem_cons_self _ _)
    have hnothas : jmHas m (asciiFold q false) = false := by
      rcases hb : jmHas m (asciiFold q false) with _ | _
      · rfl
      · exact absurd ((jmHas_iff_mem_keys _ _).mp hb) hnotin
    have hset : jmSet m (asciiFold q false) q =
        m ++ [(asciiFold q false, q)] := jmSet_of_not_has m _ q hnothas
    have h2 : ((m ++ [(asciiFold q false, q)]).map Prod.fst ++
        rest.map (fun q => asciiFold q false)).Nodup := by
      rw [List.map_append, List.append_assoc]
      simpa using h
    rw [hset, ih _ h2, List.append_assoc]
    simp

theorem buildFoldMap_eq (u : List String)
    (h : (u.map (fun q => asciiFold q false)).Nodup) :
    buildFoldMap u = u.map (fun q => (asciiFold q false, q)) := by
  unfold buildFoldMap
  rw [buildFoldMap_aux u [] (by simpa using h)]
  simp

/-! ## Cache-phase and catch-all lemmas -/

theorem lru_get_data {α : Type} (cc : LRUCache α) (now : Nat) (key : String)
    (v : α) (h : (cc.get now key).1 = some v) :
    ∃ pr ∈ cc.entries, pr.2.data = v := by
  unfold LRUCache.get at h
  rcases hf : cc.entries.find? (fun p => p.1 == key) with _ | pr
  · rw [hf] at h
    cases h
  · rw [hf] at h
    dsimp only at h
    split at h
    · simp at h
    · dsimp only at h
      exact ⟨pr, List.mem_of_find?_eq_some hf, Option.some.inj h⟩

theorem getWikiDescription_fst (st : CacheState) (now : Nat) (t s : String)
    (h : (getWikiDescription st now t).1 = some s) :
    ∃ pr ∈ st.wiki.entries, pr.2.data = some s := by
  unfold getWikiDescription at h
  dsimp only at h
  rcases hg : (st.wiki.get now t).1 with _ | v
  · rw [hg] at h
    cases h
  · rcases v with _ | s2
    · rw [hg] at h
      cases h
    · rw [hg] at h
      dsimp only at h
      have hs : s2 = s := Option.some.inj h
      subst hs
      exact lru_get_data st.wiki now t (some s2) hg

theorem getWikiDescriptionsBatch_vals (st : CacheState) (now : Nat)
    (titles : List String) :
    (∀ pr ∈ (getWikiDescriptionsBatch st now titles).2.wiki.entries,
      pr ∈ st.wiki.entries) ∧
    ∀ p ∈ (getWikiDescriptionsBatch st now titles).1, ∀ s, p.2 = some s →
      ∃ pr ∈ st.wiki.entries, pr.2.data = some s := by
  unfold getWikiDescriptionsBatch
  refine foldl_inv
    (fun (acc : List (String × Option String) × CacheState) =>
      (∀ pr ∈ acc.2.wiki.entries, pr ∈ st.wiki.entries) ∧
      ∀ p ∈ acc.1, ∀ s, p.2 = some s →
        ∃ pr ∈ st.wiki.entries, pr.2.data = some s)
    _ titles ([], st) (fun b a hb => ?_)
    ⟨fun pr hpr => hpr, fun p hp => absurd hp (List.not_mem_nil p)⟩
  dsimp only
  constructor
  · intro pr hpr
    have hsub : ∀ q ∈ (getWikiDescription b.2 now a).2.wiki.entries,
        q ∈ b.2.wiki.entries := by
      intro q hq
      unfold getWikiDescription at hq
      dsimp only at hq
      exact lru_get_snd_subset b.2.wiki now a q hq
    exact hb.1 pr (hsub pr hpr)
  · intro p hp s hs
    rw [List.mem_append] at hp
    rcases hp with hp | hp
    · exact hb.2 p hp s hs
    · rw [List.mem_singleton] at hp
      have hfst : (getWikiDescription b.2 now a).1 = some s := by
        rw [hp] at hs
        exact hs
      rcases getWikiDescription_fst b.2 now a s hfst with ⟨pr, hpr, hd⟩
      exact ⟨pr, hb.1 pr hpr, hd⟩

theorem catchStep_mono (now : Nat) (t : String)
    (b : List (String × Option String) × CacheState) (a : String)
    (hb : jmHas b.1 t = true) : jmHas (catchStep now b a).1 t = true := by
  unfold catchStep
  split
  · exact hb
  · exact jmHas_jmSet_mono b.1 a t none hb

theorem wikiCatchAll_fold_mono (now : Nat) (l : List String) (t : String)
    (acc : List (String × Option String) × CacheState)
    (h : jmHas acc.1 t = true) :
    jmHas (l.foldl (catchStep now) acc).1 t = true :=
  foldl_inv (fun b => jmHas b.1 t = true) _ l acc
    (fun b a hb => catchStep_mono now t b a hb) h

theorem wikiCatchAll_fold_covers (now : Nat) (l : List String) :
    ∀ acc : List (String × Option String) × CacheState, ∀ t ∈ l,
      jmHas (l.foldl (catchStep now) acc).1 t = true := by
  induction l with
  | nil => intro acc t ht; cases ht
  | cons a rest ih =>
    intro acc t ht
    rcases List.mem_cons.mp ht with he | hm
    · subst he
      rw [List.foldl_cons]
      refine wikiCatchAll_fold_mono now rest t _ ?_
      unfold catchStep
      split
      next hh => exact hh
      next hh => exact jmHas_jmSet_self _ t none
    · rw [List.foldl_cons]
      exact ih _ t hm

theorem wikiCatchAll_covers (titles : List String)
    (result : List (String × Option String)) (st : CacheState) (now : Nat) :
    ∀ t ∈ titles, jmHas (wikiCatchAll titles result st now).1 t = true := by
  unfold wikiCatchAll
  exact wikiCatchAll_fold_covers now titles (result, st)

theorem wikiCatchAll_entries (titles : List String)
    (result : List (String × Option String)) (st : CacheState) (now : Nat) :
    ∀ pr ∈ (wikiCatchAll titles result st now).1,
      pr ∈ result ∨ (pr.1 ∈ titles ∧ pr.2 = none) := by
  unfold wikiCatchAll
  refine foldl_inv_mem
    (fun b => ∀ pr ∈ b.1, pr ∈ result ∨ (pr.1 ∈ titles ∧ pr.2 = none))
    _ titles (result, st) (fun b a ha hb => ?_) (fun pr hpr => Or.inl hpr)
  unfold catchStep
  split
  · exact hb
  · intro pr hpr
    rcases jmSet_mem b.1 a none pr hpr with h | h
    · exact hb pr h
    · refine Or.inr ⟨?_, ?_⟩
      · rw [h]
        exact ha
      · rw [h]

theorem wikiCatchAll_keys_nodup (titles : List String)
    (result : List (String × Option String)) (st : CacheState) (now : Nat)
    (h : (result.map Prod.fst).Nodup) :
    ((wikiCatchAll titles result st now).1.map Prod.fst).Nodup := by
  unfold wikiCatchAll
  refine foldl_inv (fun b => (b.1.map Prod.fst).Nodup) _ titles (result, st)
    (fun b a hb => ?_) h
  unfold catchStep
  split
  · exact hb
  · exact jmSet_keys_nodup b.1 a none hb

theorem cacheCheckStep_cases (cr : List (String × Option String))
    (b : List (String × Option String) × List String) (a : String) :
    (∃ s, jmGet cr a = some (some s) ∧
      cacheCheckStep cr b a = (jmSet b.1 a (some s), b.2)) ∨
    cacheCheckStep cr b a = (b.1, b.2 ++ [a]) := by
  unfold cacheCheckStep
  rcases hg : jmGet cr a with _ | os
  · right
    rfl
  · rcases os with _ | s
    · right
      rfl
    · left
      exact ⟨s, rfl, rfl⟩

theorem cacheFold_res_mono (cr : List (String × Option String))
    (l : List String) (t : String)
    (acc : List (String × Option String) × List String)
    (h : jmHas acc.1 t = true) :
    jmHas (l.foldl (cacheCheckStep cr) acc).1 t = true := by
  refine foldl_inv (fun b => jmHas b.1 t = true) _ l acc (fun b a hb => ?_) h
  rcases cacheCheckStep_cases cr b a with ⟨s, hg, he⟩ | he
  · rw [he]
    exact jmHas_jmSet_mono b.1 a t (some s) hb
  · rw [he]
    exact hb

theorem cacheFold_unc_mono (cr : List (String × Option String))
    (l : List String) (t : String)
    (acc : List (String × Option String) × List String) (h : t ∈ acc.2) :
    t ∈ (l.foldl (cacheCheckStep cr) acc).2 := by
  refine foldl_inv (fun b => t ∈ b.2) _ l acc (fun b a hb => ?_) h
  rcases cacheCheckStep_cases cr b a with ⟨s, hg, he⟩ | he
  · rw [he]
    exact hb
  · rw [he]
    exact List.mem_append_left _ hb

theorem cacheFold_covers (cr : List (String × Option String))
    (l : List String) :
    ∀ acc : List (String × Option String) × List String, ∀ t ∈ l,
      jmHas (l.foldl (cacheCheckStep cr) acc).1 t = true ∨
        t ∈ (l.foldl (cacheCheckStep cr) acc).2 := by
  induction l with
  | nil => intro acc t ht; cases ht
  | cons a rest ih =>
    intro acc t ht
    rcases List.mem_cons.mp ht with he | hm
    · subst he
      rw [List.foldl_cons]
      rcases cacheCheckStep_cases cr acc t with ⟨s, hg, he⟩ | he
      · left
        rw [he]
        exact cacheFold_res_mono cr rest t _ (jmHas_jmSet_self acc.1 t (some s))
      · right
        rw [he]
        exact cacheFold_unc_mono cr rest t _
          (List.mem_append_right _ (List.mem_singleton.mpr rfl))
    · rw [List.foldl_cons]
      exact ih _ t hm

theorem cacheFold_entries (cr : List (String × Option String))
    (l : List String) (acc : List (String × Option String) × List String)
    (hv : ∀ t s, jmGet cr t = some (some s) → s ≠ "") :
    ∀ pr ∈ (l.foldl (cacheCheckStep cr) acc).1,
      pr ∈ acc.1 ∨ (pr.1 ∈ l ∧ pr.2 ≠ some "") := by
  refine foldl_inv_mem
    (fun b => ∀ pr ∈ b.1, pr ∈ acc.1 ∨ (pr.1 ∈ l ∧ pr.2 ≠ some "")) _ l acc
    (fun b a ha hb => ?_) (fun pr hpr => Or.inl hpr)
  rcases cacheCheckStep_cases cr b a with ⟨s, hg, he⟩ | he
  · rw [he]
    intro pr hpr
    rcases jmSet_mem b.1 a (some s) pr hpr with h | h
    · exact hb pr h
    · refine Or.inr ⟨?_, ?_⟩
      · rw [h]
        exact ha
      · rw [h]
        exact fun hcon => hv a s hg (Option.some.inj hcon)
  · rw [he]
    exact hb

theorem cacheFold_unc_sub (cr : List (String × Option String))
    (l titlesAll : List String)
    (acc : List (String × Option String) × List String)
    (hacc : ∀ t ∈ acc.2, t ∈ titlesAll) (hl : ∀ t ∈ l, t ∈ titlesAll) :
    ∀ t ∈ (l.foldl (cacheCheckStep cr) acc).2, t ∈ titlesAll := by
  refine foldl_inv_mem (fun b => ∀ t ∈ b.2, t ∈ titlesAll) _ l acc
    (fun b a ha hb => ?_) hacc
  rcases cacheCheckStep_cases cr b a with ⟨s, hg, he⟩ | he
  · rw [he]
    exact hb
  · rw [he]
    intro t ht
    rcases List.mem_append.mp ht with h | h
    · exact hb t h
    · rw [List.mem_singleton.mp h]
      exact hl a ha

theorem cacheFold_keys_nodup (cr : List (String × Option String))
    (l : List String) (acc : List (String × Option String) × List String)
    (h : (acc.1.map Prod.fst).Nodup) :
    ((l.foldl (cacheCheckStep cr) acc).1.map Prod.fst).Nodup := by
  refine foldl_inv (fun b => (b.1.map Prod.fst).Nodup) _ l acc
    (fun b a hb => ?_) h
  rcases cacheCheckStep_cases cr b a with ⟨s, hg, he⟩ | he
  · rw [he]
    exact jmSet_keys_nodup b.1 a (some s) hb
  · rw [he]
    exact hb

theorem summariesCachePhase_covers (st : CacheState) (now : Nat)
    (titles : List String) :
    ∀ t ∈ titles, jmHas (summariesCachePhase st now titles).1.1 t = true ∨
      t ∈ (summariesCachePhase st now titles).1.2 := by
  unfold summariesCachePhase
  dsimp only
  exact cacheFold_covers _ titles ([], [])

theorem summariesCachePhase_entries (st : CacheState) (now : Nat)
    (titles : List String)
    (hwf : ∀ pr ∈ st.wiki.entries, pr.2.data ≠ some "") :
    ∀ p ∈ (summariesCachePhase st now titles).1.1,
      p.1 ∈ titles ∧ p.2 ≠ some "" := by
  unfold summariesCachePhase
  dsimp only
  intro p hp
  have hv : ∀ t s, jmGet (getWikiDescriptionsBatch st now titles).1 t =
      some (some s) → s ≠ "" := by
    intro t s hg
    have hmem := jmGet_mem _ t (some s) hg
    rcases (getWikiDescriptionsBatch_vals st now titles).2 (t, some s) hmem s
      rfl with ⟨pr, hpr, hd⟩
    intro hse
    subst hse
    exact hwf pr hpr hd
  rcases cacheFold_entries _ titles ([], []) hv p hp with h | h
  · cases h
  · exact h

theorem summariesCachePhase_unc_sub (st : CacheState) (now : Nat)
    (titles : List String) :
    ∀ t ∈ (summariesCachePhase st now titles).1.2, t ∈ titles := by
  unfold summariesCachePhase
  dsimp only
  exact cacheFold_unc_sub _ titles titles ([], [])
    (fun t ht => absurd ht (List.not_mem_nil t)) (fun t ht => ht)

theorem summariesCachePhase_keys_nodup (st : CacheState) (now : Nat)
    (titles : List String) :
    (((summariesCachePhase st now titles).1.1).map Prod.fst).Nodup := by
  unfold summariesCachePhase
  dsimp only
  exact cacheFold_keys_nodup _ titles ([], []) (by simp)

/-- C6 (amended): for every knowledge-source oracle, requested title list,
country, instant, and cache state whose stored descriptions are non-empty,
if no two distinct retry queries of the call ASCII-fold to the same string,
then the returned mapping has exactly one entry per originally requested
title — every requested title has an entry, every entry key is a requested
title, and the keys are pairwise distinct — and every value is null or a
non-empty description.  On a fold collision entries are genuinely lost, as
the counterexample shows. -/
theorem claim_C6 (o : WikiOracle) (titles : List String) (country : Country)
    (st : CacheState) (now : Nat)
    (hwf : ∀ pr ∈ st.wiki.entries, pr.2.data ≠ some "")
    (hnc : ((summariesUnresolved o titles country st now).map
      (fun q => asciiFold q false)).Nodup) :
    (∀ t ∈ titles,
      jmHas (getSummaries o titles country st now).result t = true) ∧
    (∀ p ∈ (getSummaries o titles country st now).result,
      p.1 ∈ titles ∧ p.2 ≠ some "") ∧
    ((getSummaries o titles country st now).result.map Prod.fst).Nodup := by
  have hcov := summariesCachePhase_covers st now titles
  have hent := summariesCachePhase_entries st now titles hwf
  have hsub := summariesCachePhase_unc_sub st now titles
  have hnd0 := summariesCachePhase_keys_nodup st now titles
  unfold getSummaries
  split
  next hemp =>
    rcases titles with _ | ⟨t0, ts⟩
    · refine ⟨?_, ?_, ?_⟩
      · intro t ht
        cases ht
      · intro p hp
        cases hp
      · simp
    · exact absurd hemp (by simp)
  next hemp =>
    dsimp only
    split
    next huemp =>
      have hu : (summariesCachePhase st now titles).1.2 = [] := by
        rcases he : (summariesCachePhase st now titles).1.2 with _ | ⟨x, xs⟩
        · rfl
        · rw [he] at huemp
          exact absurd huemp (by simp)
      refine ⟨?_, ?_, hnd0⟩
      · intro t ht
        rcases hcov t ht with h | h
        · exact h
        · rw [hu] at h
          cases h
      · intro p hp
        exact hent p hp
    next huemp =>
      split
      next e heq1 =>
        refine ⟨?_, ?_, ?_⟩
        · intro t ht
          exact wikiCatchAll_covers titles _ _ now t ht
        · intro p hp
          rcases wikiCatchAll_entries titles _ _ now p hp with h | h
          · exact hent p h
          · refine ⟨h.1, ?_⟩
            rw [h.2]
            simp
        · exact wikiCatchAll_keys_nodup titles _ _ now hnd0
      next r1 heq1 =>
        have hures : summariesUnresolved o titles country st now =
            (summariesCachePhase st now titles).1.2.filterMap
              (pass1Queued country r1) := by
          unfold summariesUnresolved summariesUncached
          rw [heq1]
        have hnc2 : (((summariesCachePhase st now titles).1.2.filterMap
            (pass1Queued country r1)).map
            (fun q => asciiFold q false)).Nodup := by
          rw [← hures]
          exact hnc
        have hanodup : ((summariesCachePhase st now titles).1.2.filterMap
            (pass1Queued country r1)).Nodup := hnc2.of_map
        generalize hp1 : (summariesCachePhase st now titles).1.2.foldl
            (summariesPass1Step country now r1)
            ((summariesCachePhase st now titles).1.1, [], [],
              (summariesCachePhase st now titles).2) = p1
        have hunr1 : p1.2.2.1 =
            (summariesCachePhase st now titles).1.2.filterMap
              (pass1Queued country r1) := by
          rw [← hp1, pass1_unresolved]
          rfl
        have hrm1 : p1.2.1 =
            (summariesCachePhase st now titles).1.2.filterMap
              (fun i => (pass1Queued country r1 i).map (fun q => (q, i))) := by
          rw [← hp1,
            pass1_retryMap country now r1 ((summariesCachePhase st now titles).1.2)
              ((summariesCachePhase st now titles).1.1) [] []
              ((summariesCachePhase st now titles).2) (by simpa using hanodup)]
          rfl
        have hafm : buildFoldMap p1.2.2.1 =
            ((summariesCachePhase st now titles).1.2.filterMap
              (pass1Queued country r1)).map
              (fun q => (asciiFold q false, q)) := by
          rw [hunr1]
          exact buildFoldMap_eq _ hnc2
        have hkeys : (buildFoldMap p1.2.2.1).map (fun p => p.1) =
            ((summariesCachePhase st now titles).1.2.filterMap
              (pass1Queued country r1)).map (fun q => asciiFold q false) := by
          rw [hafm, List.map_map]
          rfl
        have hrmget : ∀ q t2, t2 ∈ (summariesCachePhase st now titles).1.2 →
            pass1Queued country r1 t2 = some q →
            jmGet p1.2.1 q = some t2 := by
          intro q t2 ht2 hq
          rw [hrm1]
          refine jmGet_of_mem_nodup _ q t2 ?_ ?_
          · refine List.mem_filterMap.mpr ⟨t2, ht2, ?_⟩
            rw [hq]
            rfl
          · rw [pass1_retryPairs_keys]
            exact hanodup
        have hafmget : ∀ q,
            q ∈ (summariesCachePhase st now titles).1.2.filterMap
              (pass1Queued country r1) →
            jmGet (buildFoldMap p1.2.2.1) (asciiFold q false) = some q := by
          intro q hq
          rw [hafm]
          refine jmGet_of_mem_nodup _ _ q (List.mem_map.mpr ⟨q, hq, rfl⟩) ?_
          have hmm : ((((summariesCachePhase st now titles).1.2.filterMap
              (pass1Queued country r1)).map
              (fun q => (asciiFold q false, q))).map Prod.fst) =
              ((summariesCachePhase st now titles).1.2.filterMap
                (pass1Queued country r1)).map (fun q => asciiFold q false) := by
            rw [List.map_map]
            rfl
          rw [hmm]
          exact hnc2
        have horig : ∀ q t2, t2 ∈ (summariesCachePhase st now titles).1.2 →
            pass1Queued country r1 t2 = some q →
            p2orig (buildFoldMap p1.2.2.1) p1.2.1 (asciiFold q false) = t2 := by
          intro q t2 ht2 hq
          unfold p2orig
          rw [hafmget q (List.mem_filterMap.mpr ⟨t2, ht2, hq⟩), Option.getD_some,
            hrmget q t2 ht2 hq, Option.getD_some]
        split
        next hremp =>
          have hflat : (summariesCachePhase st now titles).1.2.filterMap
              (pass1Queued country r1) = [] := by
            rw [← hunr1]
            rcases he : p1.2.2.1 with _ | ⟨x, xs⟩
            · rfl
            · rw [he] at hremp
              exact absurd hremp (by simp)
          have hallnone : ∀ i ∈ (summariesCachePhase st now titles).1.2,
              pass1Queued country r1 i = none := by
            intro i hi
            rcases hqq : pass1Queued country r1 i with _ | q
            · rfl
            · exfalso
              have hmemq : q ∈ (summariesCachePhase st now titles).1.2.filterMap
                  (pass1Queued country r1) :=
                List.mem_filterMap.mpr ⟨i, hi, hqq⟩
              rw [hflat] at hmemq
              cases hmemq
          refine ⟨?_, ?_, ?_⟩
          · intro t ht
            rcases hcov t ht with h | h
            · rw [← hp1]
              exact pass1_result_mono country now r1 _ t _ h
            · rw [← hp1]
              exact pass1_result_settled country now r1 _ _ t h (hallnone t h)
          · intro p hp
            rw [← hp1] at hp
            rcases pass1_result_entries country now r1 _ _ p hp with h | h
            · exact hent p h
            · exact ⟨hsub p.1 h.1, h.2⟩
          · rw [← hp1]
            exact pass1_result_keys_nodup country now r1 _ _ hnd0
        next hremp =>
          split
          next e2 heq2 =>
            refine ⟨?_, ?_, ?_⟩
            · intro t ht
              exact wikiCatchAll_covers titles _ _ now t ht
            · intro p hp
              rcases wikiCatchAll_entries titles _ _ now p hp with h | h
              · rw [← hp1] at h
                rcases pass1_result_entries country now r1 _ _ p h with h2 | h2
                · exact hent p h2
                · exact ⟨hsub p.1 h2.1, h2.2⟩
              · refine ⟨h.1, ?_⟩
                rw [h.2]
                simp
            · refine wikiCatchAll_keys_nodup titles _ _ now ?_
              rw [← hp1]
              exact pass1_result_keys_nodup country now r1 _ _ hnd0
          next r2 heq2 =>
            refine ⟨?_, ?_, ?_⟩
            · intro t ht
              rcases hcov t ht with h | h
              · refine pass2_result_mono now _ _ r2 _ t _ ?_
                rw [← hp1]
                exact pass1_result_mono country now r1 _ t _ h
              · cases hq : pass1Queued country r1 t with
                | none =>
                  refine pass2_result_mono now _ _ r2 _ t _ ?_
                  rw [← hp1]
                  exact pass1_result_settled country now r1 _ _ t h hq
                | some q =>
                  have hft : asciiFold q false ∈
                      (buildFoldMap p1.2.2.1).map (fun p => p.1) := by
                    rw [hkeys]
                    exact List.mem_map.mpr
                      ⟨q, List.mem_filterMap.mpr ⟨t, h, hq⟩, rfl⟩
                  have h2 := pass2_result_covers now (buildFoldMap p1.2.2.1)
                    p1.2.1 r2 ((buildFoldMap p1.2.2.1).map (fun p => p.1))
                    (p1.1, p1.2.2.2) (asciiFold q false) hft
                  rw [horig q t h hq] at h2
                  exact h2
            · intro p hp
              rcases pass2_result_entries now _ _ r2 _ _ p hp with h | h
              · rw [← hp1] at h
                rcases pass1_result_entries country now r1 _ _ p h with h2 | h2
                · exact hent p h2
                · exact ⟨hsub p.1 h2.1, h2.2⟩
              · rcases h with ⟨ft, hftmem, hpe⟩
                have hq2 : ∃ q2,
                    q2 ∈ (summariesCachePhase st now titles).1.2.filterMap
                      (pass1Queued country r1) ∧ ft = asciiFold q2 false := by
                  rw [hkeys] at hftmem
                  rcases List.mem_map.mp hftmem with ⟨q2, hq2m, hq2e⟩
                  exact ⟨q2, hq2m, hq2e.symm⟩
                rcases hq2 with ⟨q2, hq2m, hfte⟩
                rcases List.mem_filterMap.mp hq2m with ⟨i2, hi2, hqi2⟩
                have horig2 : p2orig (buildFoldMap p1.2.2.1) p1.2.1 ft = i2 := by
                  rw [hfte]
                  exact horig q2 i2 hi2 hqi2
                refine ⟨?_, ?_⟩
                · rw [hpe]
                  dsimp only
                  rw [horig2]
                  exact hsub i2 hi2
                · rw [hpe]
                  exact pass2Val_ne_empty r2 ft
            · refine pass2_result_keys_nodup now _ _ r2 _ _ ?_
              rw [← hp1]
              exact pass1_result_keys_nodup country now r1 _ _ hnd0

/-- C6 witness: the guarantee instantiated on a two-title request where both
titles are unresolved and their ASCII folds are distinct, from an empty
cache. -/
theorem claim_C6_witness :
    (∀ pr ∈ initialCacheState.wiki.entries, pr.2.data ≠ some "") ∧
    ((summariesUnresolved wikiAllMissing ["Alpha", "Beta"] Country.PL
        initialCacheState 0).map (fun q => asciiFold q false)).Nodup ∧
    ((∀ t ∈ (["Alpha", "Beta"] : List String),
        jmHas (getSummaries wikiAllMissing ["Alpha", "Beta"] Country.PL
          initialCacheState 0).result t = true) ∧
      (∀ p ∈ (getSummaries wikiAllMissing ["Alpha", "Beta"] Country.PL
          initialCacheState 0).result,
        p.1 ∈ (["Alpha", "Beta"] : List String) ∧ p.2 ≠ some "") ∧
      ((getSummaries wikiAllMissing ["Alpha", "Beta"] Country.PL
        initialCacheState 0).result.map Prod.fst).Nodup) :=
  ⟨by decide, by decide,
   claim_C6 wikiAllMissing ["Alpha", "Beta"] Country.PL initialCacheState 0
     (by decide) (by decide)⟩

/-- C7 (amended): for every call and every uncached input title whose
first-batch page resolves to a disambiguation page, provided no two distinct
retry queries of the call ASCII-fold to the same string: the call issues
exactly two batched queries (the uncached titles, then the folded retry
queries — never a third); the retry list contains the ASCII fold of the
input with the country label appended exactly once; and when the second
batch succeeds but resolves no page for that retry query, or a page that
fails validation (still ambiguous or otherwise invalid), the input resolves
to null in the returned mapping. -/
theorem claim_C7 (o : WikiOracle) (titles : List String) (country : Country)
    (st : CacheState) (now : Nat) (input : String) (r1 : BatchResult)
    (page : QueryPage)
    (hb1 : fetchBatch o (summariesUncached st now titles) = Except.ok r1)
    (hmem : input ∈ summariesUncached st now titles)
    (hpg : getPage input r1 = some page)
    (hdis : (validatePageIsCity page).2 = "disambiguation")
    (hnc : ((summariesUnresolved o titles country st now).map
      (fun q => asciiFold q false)).Nodup) :
    (getSummaries o titles country st now).calls =
      [summariesUncached st now titles,
       summariesFoldedTitles o titles country st now] ∧
    (summariesFoldedTitles o titles country st now).count
      (asciiFold (input ++ ", " ++ countryLabel country) false) = 1 ∧
    (∀ r2, fetchBatch o (summariesFoldedTitles o titles country st now) =
        Except.ok r2 →
      getPage (asciiFold (input ++ ", " ++ countryLabel country) false) r2 =
        none →
      jmGet (getSummaries o titles country st now).result input = some none) ∧
    (∀ r2 p2, fetchBatch o (summariesFoldedTitles o titles country st now) =
        Except.ok r2 →
      getPage (asciiFold (input ++ ", " ++ countryLabel country) false) r2 =
        some p2 →
      (validatePageIsCity p2).1 = false →
      jmGet (getSummaries o titles country st now).result input = some none) := by
  have hq : pass1Queued country r1 input =
      some (input ++ ", " ++ countryLabel country) := by
    unfold pass1Queued
    rw [hpg]
    dsimp only
    rw [hdis]
    simp
  unfold getSummaries
  split
  next hemp =>
    exfalso
    rcases titles with _ | ⟨t0, ts⟩
    · have he0 : summariesUncached st now ([] : List String) = [] := rfl
      rw [he0] at hmem
      cases hmem
    · exact absurd hemp (by simp)
  next hemp =>
    dsimp only
    split
    next huemp =>
      exfalso
      have hu : (summariesCachePhase st now titles).1.2 = [] := by
        rcases he : (summariesCachePhase st now titles).1.2 with _ | ⟨x, xs⟩
        · rfl
        · rw [he] at huemp
          exact absurd huemp (by simp)
      have hmem2 : input ∈ (summariesCachePhase st now titles).1.2 := hmem
      rw [hu] at hmem2
      cases hmem2
    next huemp =>
      have h1b : fetchBatch o ((summariesCachePhase st now titles).1.2) =
          Except.ok r1 := hb1
      split
      next e heq1 =>
        exfalso
        rw [h1b] at heq1
        cases heq1
      next r1x heq1 =>
        rw [h1b] at heq1
        have hr1 : r1 = r1x := Except.ok.inj heq1
        subst hr1
        have hures : summariesUnresolved o titles country st now =
            (summariesCachePhase st now titles).1.2.filterMap
              (pass1Queued country r1) := by
          unfold summariesUnresolved summariesUncached
          rw [h1b]
        have hnc2 : (((summariesCachePhase st now titles).1.2.filterMap
            (pass1Queued country r1)).map
            (fun q => asciiFold q false)).Nodup := by
          rw [← hures]
          exact hnc
        have hanodup : ((summariesCachePhase st now titles).1.2.filterMap
            (pass1Queued country r1)).Nodup := hnc2.of_map
        generalize hp1 : (summariesCachePhase st now titles).1.2.foldl
            (summariesPass1Step country now r1)
            ((summariesCachePhase st now titles).1.1, [], [],
              (summariesCachePhase st now titles).2) = p1
        have hunr1 : p1.2.2.1 =
            (summariesCachePhase st now titles).1.2.filterMap
              (pass1Queued country r1) := by
          rw [← hp1, pass1_unresolved]
          rfl
        have hrm1 : p1.2.1 =
            (summariesCachePhase st now titles).1.2.filterMap
              (fun i => (pass1Queued country r1 i).map (fun q => (q, i))) := by
          rw [← hp1,
            pass1_retryMap country now r1 ((summariesCachePhase st now titles).1.2)
              ((summariesCachePhase st now titles).1.1) [] []
              ((summariesCachePhase st now titles).2) (by simpa using hanodup)]
          rfl
        have hafm : buildFoldMap p1.2.2.1 =
            ((summariesCachePhase st now titles).1.2.filterMap
              (pass1Queued country r1)).map
              (fun q => (asciiFold q false, q)) := by
          rw [hunr1]
          exact buildFoldMap_eq _ hnc2
        have hkeys : (buildFoldMap p1.2.2.1).map (fun p => p.1) =
            ((summariesCachePhase st now titles).1.2.filterMap
              (pass1Queued country r1)).map (fun q => asciiFold q false) := by
          rw [hafm, List.map_map]
          rfl
        have hrmget : ∀ q t2, t2 ∈ (summariesCachePhase st now titles).1.2 →
            pass1Queued country r1 t2 = some q →
            jmGet p1.2.1 q = some t2 := by
          intro q t2 ht2 hq2
          rw [hrm1]
          refine jmGet_of_mem_nodup _ q t2 ?_ ?_
          · refine List.mem_filterMap.mpr ⟨t2, ht2, ?_⟩
            rw [hq2]
            rfl
          · rw [pass1_retryPairs_keys]
            exact hanodup
        have hafmget : ∀ q,
            q ∈ (summariesCachePhase st now titles).1.2.filterMap
              (pass1Queued country r1) →
            jmGet (buildFoldMap p1.2.2.1) (asciiFold q false) = some q := by
          intro q hq2
          rw [hafm]
          refine jmGet_of_mem_nodup _ _ q (List.mem_map.mpr ⟨q, hq2, rfl⟩) ?_
          have hmm : ((((summariesCachePhase st now titles).1.2.filterMap
              (pass1Queued country r1)).map
              (fun q => (asciiFold q false, q))).map Prod.fst) =
              ((summariesCachePhase st now titles).1.2.filterMap
                (pass1Queued country r1)).map (fun q => asciiFold q false) := by
            rw [List.map_map]
            rfl
          rw [hmm]
          exact hnc2
        have horig : ∀ q t2, t2 ∈ (summariesCachePhase st now titles).1.2 →
            pass1Queued country r1 t2 = some q →
            p2orig (buildFoldMap p1.2.2.1) p1.2.1 (asciiFold q false) = t2 := by
          intro q t2 ht2 hq2
          unfold p2orig
          rw [hafmget q (List.mem_filterMap.mpr ⟨t2, ht2, hq2⟩), Option.getD_some,
            hrmget q t2 ht2 hq2, Option.getD_some]
        have hqmem : (input ++ ", " ++ countryLabel country) ∈
            (summariesCachePhase st now titles).1.2.filterMap
              (pass1Queued country r1) :=
          List.mem_filterMap.mpr ⟨input, hmem, hq⟩
        split
        next hremp =>
          exfalso
          have hmemq2 : (input ++ ", " ++ countryLabel country) ∈ p1.2.2.1 := by
            rw [hunr1]
            exact hqmem
          rcases he : p1.2.2.1 with _ | ⟨x, xs⟩
          · rw [he] at hmemq2
            cases hmemq2
          · rw [he] at hremp
            exact absurd hremp (by simp)
        next hremp =>
          have hfolded : summariesFoldedTitles o titles country st now =
              (buildFoldMap p1.2.2.1).map (fun p => p.1) := by
            unfold summariesFoldedTitles
            rw [hures, ← hunr1]
          have hfnew_mem :
              asciiFold (input ++ ", " ++ countryLabel country) false ∈
                (buildFoldMap p1.2.2.1).map (fun p => p.1) := by
            rw [hkeys]
            exact List.mem_map.mpr ⟨_, hqmem, rfl⟩
          have hcount : ((buildFoldMap p1.2.2.1).map (fun p => p.1)).count
              (asciiFold (input ++ ", " ++ countryLabel country) false) = 1 := by
            rw [hkeys]
            exact List.count_eq_one_of_mem hnc2
              (List.mem_map.mpr ⟨_, hqmem, rfl⟩)
          have hget : ∀ r2c : BatchResult,
              pass2Val r2c
                (asciiFold (input ++ ", " ++ countryLabel country) false) =
                none →
              jmGet (((buildFoldMap p1.2.2.1).map (fun p => p.1)).foldl
                (summariesPass2Step now (buildFoldMap p1.2.2.1) p1.2.1 r2c)
                (p1.1, p1.2.2.2)).1 input = some none := by
            intro r2c hvn
            have horig1 : p2orig (buildFoldMap p1.2.2.1) p1.2.1
                (asciiFold (input ++ ", " ++ countryLabel country) false) =
                input := horig _ input hmem hq
            have huniq : ∀ ft2 ∈ (buildFoldMap p1.2.2.1).map (fun p => p.1),
                p2orig (buildFoldMap p1.2.2.1) p1.2.1 ft2 = input →
                ft2 = asciiFold (input ++ ", " ++ countryLabel country) false := by
              intro ft2 hft2 he2
              rw [hkeys] at hft2
              rcases List.mem_map.mp hft2 with ⟨q2, hq2m, hq2e⟩
              rcases List.mem_filterMap.mp hq2m with ⟨i2, hi2, hqi2⟩
              have ho2 : p2orig (buildFoldMap p1.2.2.1) p1.2.1 ft2 = i2 := by
                rw [← hq2e]
                exact horig q2 i2 hi2 hqi2
              have hii : i2 = input := ho2.symm.trans he2
              rw [hii] at hqi2
              rw [hq] at hqi2
              rw [← hq2e, ← Option.some.inj hqi2]
            have hnodupl : ((buildFoldMap p1.2.2.1).map (fun p => p.1)).Nodup := by
              rw [hkeys]
              exact hnc2
            have hfin := pass2_get_eq now (buildFoldMap p1.2.2.1) p1.2.1 r2c
              ((buildFoldMap p1.2.2.1).map (fun p => p.1)) input
              (asciiFold (input ++ ", " ++ countryLabel country) false)
              (p1.1, p1.2.2.2) hfnew_mem horig1 huniq hnodupl
            rw [hvn] at hfin
            exact hfin
          split
          next e2 heq2 =>
            refine ⟨?_, ?_, ?_, ?_⟩
            · rw [hfolded]
              rfl
            · rw [hfolded]
              exact hcount
            · intro r2 h2 hgp
              exfalso
              rw [hfolded] at h2
              rw [h2] at heq2
              cases heq2
            · intro r2 p2 h2 hgp hval
              exfalso
              rw [hfolded] at h2
              rw [h2] at heq2
              cases heq2
          next r2x heq2 =>
            refine ⟨?_, ?_, ?_, ?_⟩
            · rw [hfolded]
              rfl
            · rw [hfolded]
              exact hcount
            · intro r2 h2 hgp
              rw [hfolded] at h2
              rw [heq2] at h2
              have hr2 : r2x = r2 := Except.ok.inj h2
              subst hr2
              have hvalnone : pass2Val r2x
                  (asciiFold (input ++ ", " ++ countryLabel country) false) =
                  none := by
                unfold pass2Val
                rw [hgp]
              exact hget r2x hvalnone
            · intro r2 p2 h2 hgp hval
              rw [hfolded] at h2
              rw [heq2] at h2
              have hr2 : r2x = r2 := Except.ok.inj h2
              subst hr2
              have hvalnone : pass2Val r2x
                  (asciiFold (input ++ ", " ++ countryLabel country) false) =
                  none := by
                unfold pass2Val
                rw [hgp]
                simp [hval]
              exact hget r2x hvalnone

/-- C7 witness: the guarantee instantiated on the Ambersville scenario,
where the first query disambiguates and the label-appended retry is still
a disambiguation page, resolving to null. -/
theorem claim_C7_witness :
    fetchBatch wikiDisambig
      (summariesUncached initialCacheState 0 ["Ambersville"]) =
      Except.ok (fetchBatchData wikiDisambig ["Ambersville"]) ∧
    "Ambersville" ∈ summariesUncached initialCacheState 0 ["Ambersville"] ∧
    getPage "Ambersville" (fetchBatchData wikiDisambig ["Ambersville"]) =
      some { ns := 0, missing := false,
             extract := some "Ambersville may refer to:",
             categories := [], disambiguation := true } ∧
    (validatePageIsCity
      { ns := 0, missing := false,
        extract := some "Ambersville may refer to:",
        categories := [], disambiguation := true }).2 = "disambiguation" ∧
    ((summariesUnresolved wikiDisambig ["Ambersville"] Country.PL
        initialCacheState 0).map (fun q => asciiFold q false)).Nodup ∧
    ((getSummaries wikiDisambig ["Ambersville"] Country.PL
        initialCacheState 0).calls =
      [summariesUncached initialCacheState 0 ["Ambersville"],
       summariesFoldedTitles wikiDisambig ["Ambersville"] Country.PL
         initialCacheState 0] ∧
     (summariesFoldedTitles wikiDisambig ["Ambersville"] Country.PL
        initialCacheState 0).count
       (asciiFold ("Ambersville" ++ ", " ++ countryLabel Country.PL) false) =
       1 ∧
     (∀ r2, fetchBatch wikiDisambig
         (summariesFoldedTitles wikiDisambig ["Ambersville"] Country.PL
           initialCacheState 0) = Except.ok r2 →
       getPage (asciiFold ("Ambersville" ++ ", " ++ countryLabel Country.PL)
         false) r2 = none →
       jmGet (getSummaries wikiDisambig ["Ambersville"] Country.PL
         initialCacheState 0).result "Ambersville" = some none) ∧
     (∀ r2 p2, fetchBatch wikiDisambig
         (summariesFoldedTitles wikiDisambig ["Ambersville"] Country.PL
           initialCacheState 0) = Except.ok r2 →
       getPage (asciiFold ("Ambersville" ++ ", " ++ countryLabel Country.PL)
         false) r2 = some p2 →
       (validatePageIsCity p2).1 = false →
       jmGet (getSummaries wikiDisambig ["Ambersville"] Country.PL
         initialCacheState 0).result "Ambersville" = some none)) :=
  ⟨rfl, by decide, by decide, by decide, by decide,
   claim_C7 wikiDisambig ["Ambersville"] Country.PL initialCacheState 0
     "Ambersville" (fetchBatchData wikiDisambig ["Ambersville"])
     { ns := 0, missing := false,
       extract := some "Ambersville may refer to:",
       categories := [], disambiguation := true }
     rfl (by decide) (by decide) (by decide) (by decide)⟩

end PollutedCities
